import Mathlib

/-!
# micro-php-web-server: request routing and the FastCGI gateway

A shallow embedding of `src/main.go` and `src/backend/app/main.go`. The two files
hold the same handler, `fileExists`, `isStaticFile` and `servePHP`; they differ
only in where the document root and the index file name come from (the constants
`"/app/public"` and `"index.php"` in `src/main.go`, command-line options in
`src/backend/app/main.go`). The handler is therefore embedded once, with the
document root and the index file name as arguments.

Modelling conventions.

* A Go `string` and a Go `[]byte` are both a `List Char` (`Str`). The functions
  of the program only test for the ASCII characters `/`, `.`, `-` and compare
  with ASCII literals, so they act the same way on code points as on bytes.
* Go maps (`map[string]string`, `http.Header`) are association lists with unique
  keys; the order of the list is the iteration order of `range` in the run.
* The functions of the Go libraries that the program calls are modelled after
  the libraries: `strings.ToLower`, `strings.ToUpper`, `strings.ReplaceAll`,
  `strings.HasSuffix`, `filepath.Ext`, `filepath.Clean`, `filepath.Join` (Unix
  rules: separator `/`, no volume names), `textproto.CanonicalMIMEHeaderKey`, the
  methods of `http.Header`, `http.Error`, `http.NotFound` and
  `http.MaxBytesReader`. `strings.ToLower` is exact on ASCII and on the two
  other runes whose lower case is an ASCII letter; `strings.ToUpper` is exact on
  ASCII and takes the case table of package `unicode` for the other runes from
  the environment; `filepath.Clean` is run element by element on the output
  buffer of the library. The theorems `Clean_examples`,
  `Join_examples`, `Ext_examples` and `CanonicalMIMEHeaderKey_examples` evaluate
  the models on the tables of the libraries' own tests.
* The outside world is a record `Env`: the file-system state answering
  `os.Stat`, the effect of `http.ServeFile`, whether `fcgiclient.Dial`
  succeeds, what `fcgi.Request` returns, and the upper-case table of package
  `unicode`. The file-system state is fixed
  during one request.
* A `ResponseWriter` records what the handler hands to it: the header map, the
  status code and the headers at the first `WriteHeader`, and the bytes written.
* Every call to the outside world is appended to a trace of `Event`s, so that
  "nothing was stat-ed" or "no connection was attempted" is a statement about
  the trace.
* A run-time panic (`v[0]` on an empty slice) is the flag `panicked` of the
  state; the deferred `fcgi.Close()` still runs.
-/

namespace WebServer

/-- Go strings and byte slices, as lists of characters. -/
abbrev Str := List Char

instance : Coe String Str := ⟨String.data⟩

/-! ## Go maps -/

/-- Map assignment `m[k] = v`: overwrite the entry for `k`, or add one. -/
def mapAssign {β : Type} : List (Str × β) → Str → β → List (Str × β)
  | [], k, v => [(k, v)]
  | (k1, v1) :: rest, k, v =>
    if k1 = k then (k, v) :: rest else (k1, v1) :: mapAssign rest k v

/-- Map lookup `m[k]`, `none` when the key is absent. -/
def mapIndex {β : Type} : List (Str × β) → Str → Option β
  | [], _ => none
  | (k1, v1) :: rest, k => if k1 = k then some v1 else mapIndex rest k

/-! ## package `unicode` and `strings` -/

/-- Go `unicode.ToLower`: exact on ASCII and on the two other runes whose lower
case is an ASCII letter (U+0130 and U+212A); every other rune is left as it is
(Go maps such a rune to a rune outside ASCII). -/
def toLowerRune (c : Char) : Char :=
  if 'A' ≤ c ∧ c ≤ 'Z' then Char.ofNat (c.toNat + 32)
  else if c = Char.ofNat 0x130 then 'i'
  else if c = Char.ofNat 0x212A then 'k'
  else c

/-- Go `unicode.ToUpper`. On ASCII it turns `a`..`z` into `A`..`Z` and leaves the
other bytes; on a rune outside ASCII it is the case table of the Unicode version
the program is built with, the argument `upper`. -/
def toUpperRune (upper : Char → Char) (c : Char) : Char :=
  if 'a' ≤ c ∧ c ≤ 'z' then Char.ofNat (c.toNat - 32)
  else if c.toNat < 128 then c
  else upper c

/-- Go `strings.ToLower`. -/
def ToLower (s : Str) : Str := s.map toLowerRune

/-- Go `strings.ToUpper`, over the case table `upper` for the runes outside ASCII. -/
def ToUpper (upper : Char → Char) (s : Str) : Str := s.map (toUpperRune upper)

/-- Go `strings.ReplaceAll(s, old, new)` for one-character `old` and `new`, the
only way the program calls it (`"-"`, `"_"`). -/
def ReplaceAll (s : Str) (old new : Char) : Str :=
  s.map fun c => if c = old then new else c

/-- Go `strings.HasSuffix`:
`len(s) >= len(suffix) && s[len(s)-len(suffix):] == suffix`. -/
def HasSuffix (s suffix : Str) : Bool :=
  decide (suffix.length ≤ s.length) && decide (s.drop (s.length - suffix.length) = suffix)

/-! ## package `path/filepath` (Unix) -/

/-- The loop of `filepath.Ext`, walking the path from its last byte: `rev` holds
`path[i], path[i-1], ..., path[0]` and `acc` is `path[i+1:]`. -/
def extLoop : List Char → List Char → Str
  | [], _ => []
  | c :: rest, acc =>
    if c = '/' then []
    else if c = '.' then c :: acc
    else extLoop rest (c :: acc)

/-- Go `filepath.Ext`: the suffix beginning at the final dot in the final
element of the path, empty if there is no dot. -/
def Ext (path : Str) : Str := extLoop path.reverse []

/-- The path elements of a path: the pieces between separators, empty pieces
included (`"a//b/"` has the elements `a`, empty, `b`, empty). -/
def splitSlash : List Char → List (List Char)
  | [] => [[]]
  | c :: cs =>
    if c = '/' then [] :: splitSlash cs
    else
      match splitSlash cs with
      | [] => [[c]]
      | e :: es => (c :: e) :: es

/-- The backtracking of `filepath.Clean` on a `..` element, on the output buffer
held last byte first: `out.w--`, then `out.w--` again while `out.w > dotdot` and
the byte at `out.w` is not a separator. -/
def backtrack (dotdot : Nat) : List Char → List Char
  | [] => []
  | c :: rest => if dotdot < rest.length ∧ c ≠ '/' then backtrack dotdot rest else rest

/-- One round of the main loop of `filepath.Clean`, for one path element. The
state is the output buffer (last byte first, so `out.w` is its length) and the
index `dotdot` below which `..` must not backtrack. -/
def cleanStep (rooted : Bool) (out : List Char × Nat) (el : List Char) : List Char × Nat :=
  if el = [] then out
  else if el = ['.'] then out
  else if el = ['.', '.'] then
    if out.2 < out.1.length then (backtrack out.2 out.1, out.2)
    else if rooted then out
    else
      let buf := '.' :: '.' :: (if 0 < out.1.length then '/' :: out.1 else out.1)
      (buf, buf.length)
  else
    let buf :=
      if (rooted && out.1.length != 1) || (!rooted && out.1.length != 0) then '/' :: out.1
      else out.1
    (el.reverse ++ buf, out.2)

/-- Go `filepath.Clean` on Unix. -/
def Clean (path : Str) : Str :=
  if path = [] then ['.']
  else
    let rooted := decide (path.head? = some '/')
    let init : List Char × Nat := if rooted then (['/'], 1) else ([], 0)
    let rest := if rooted then path.tail else path
    let out := (splitSlash rest).foldl (cleanStep rooted) init
    if out.1 = [] then ['.'] else out.1.reverse

/-- Go `filepath.Join` of two elements: the non-empty elements from the first
non-empty one on are joined with the separator and cleaned; the result is empty
when both are empty. -/
def Join (a b : Str) : Str :=
  if a ≠ [] then Clean (a ++ '/' :: b)
  else if b ≠ [] then Clean b
  else []

/-! ## package `net/http` and `net/textproto` -/

/-- Go `http.Header`: header name to the sequence of its values. -/
abbrev Header := List (Str × List Str)

/-- The bytes allowed in a header field name (`textproto`, the token table). -/
def validHeaderFieldByte (c : Char) : Bool :=
  c.isAlphanum || ("!#$%&'*+-.^_`|~" : Str).contains c

/-- The rewriting loop of `textproto.canonicalMIMEHeaderKey`: upper case for the
first letter and for a letter after a dash, lower case for the others. -/
def canonLoop : Bool → List Char → List Char
  | _, [] => []
  | upper, c :: cs =>
    let c1 :=
      if upper && decide ('a' ≤ c ∧ c ≤ 'z') then Char.ofNat (c.toNat - 32)
      else if !upper && decide ('A' ≤ c ∧ c ≤ 'Z') then Char.ofNat (c.toNat + 32)
      else c
    c1 :: canonLoop (c1 == '-') cs

/-- Go `textproto.CanonicalMIMEHeaderKey`: a key that holds a byte that is not
allowed in a field name is returned unchanged. -/
def CanonicalMIMEHeaderKey (s : Str) : Str :=
  if s.all validHeaderFieldByte then canonLoop true s else s

/-- The values stored under a key of the map itself (`h[key]`), empty when the
key is absent. -/
def Header.values (h : Header) (key : Str) : List Str :=
  (mapIndex h key).getD []

/-- Go `Header.Set`. -/
def Header.Set (h : Header) (key value : Str) : Header :=
  mapAssign h (CanonicalMIMEHeaderKey key) [value]

/-- Go `Header.Add`. -/
def Header.Add (h : Header) (key value : Str) : Header :=
  mapAssign h (CanonicalMIMEHeaderKey key) (h.values (CanonicalMIMEHeaderKey key) ++ [value])

/-- Go `Header.Get`: the first value under the canonical key, or the empty string. -/
def Header.Get (h : Header) (key : Str) : Str :=
  match h.values (CanonicalMIMEHeaderKey key) with
  | [] => []
  | v :: _ => v

/-- Go `Header.Values`: all values under the canonical key. -/
def Header.Values (h : Header) (key : Str) : List Str :=
  h.values (CanonicalMIMEHeaderKey key)

/-- A byte stream that is read to its end: the bytes it yields, and whether it
ends with an error instead of end-of-file. -/
structure Reader where
  data : Str
  err : Bool
deriving DecidableEq

/-- Go `http.MaxBytesReader`: reading past `n` bytes fails. -/
def MaxBytesReader (b : Reader) (n : Nat) : Reader :=
  if n < b.data.length then ⟨b.data.take n, true⟩ else b

/-- The fields of `*http.Request` the program reads. -/
structure Request where
  Method : Str
  Path : Str
  RawQuery : Str
  Header : Header
  Proto : Str
  RemoteAddr : Str
  RequestURI : Str
  Host : Str
  Body : Reader
deriving DecidableEq

/-- The `http.ResponseWriter` of one request: the header map `w.Header()`, the
status code and header snapshot sent by the first `WriteHeader` (`none` before
it), and the body bytes written so far. -/
structure ResponseWriter where
  header : Header
  wrote : Option (Nat × Header)
  body : Str
deriving DecidableEq

/-- The status code of the response, once the header has been written. -/
def ResponseWriter.status (w : ResponseWriter) : Option Nat := w.wrote.map Prod.fst

/-- Go `w.WriteHeader(code)`: the first call fixes the status code and the headers
that are sent; a later call changes nothing. -/
def ResponseWriter.WriteHeader (w : ResponseWriter) (code : Nat) : ResponseWriter :=
  match w.wrote with
  | some _ => w
  | none => { w with wrote := some (code, w.header) }

/-- Go `w.Write(b)`: writes the header with status 200 if it was not written. -/
def ResponseWriter.Write (w : ResponseWriter) (b : Str) : ResponseWriter :=
  let w1 := w.WriteHeader 200
  { w1 with body := w1.body ++ b }

/-- Go `http.Error`. -/
def Error (w : ResponseWriter) (msg : Str) (code : Nat) : ResponseWriter :=
  let w1 := { w with header := w.header.Set "Content-Type" "text/plain; charset=utf-8" }
  let w2 := { w1 with header := w1.header.Set "X-Content-Type-Options" "nosniff" }
  (w2.WriteHeader code).Write (msg ++ ['\n'])

/-- Go `http.NotFound`. -/
def NotFound (w : ResponseWriter) : ResponseWriter :=
  Error w "404 page not found" 404

/-! ## The outside world -/

/-- What `os.Stat` reports about a file. -/
structure FileInfo where
  isDir : Bool
deriving DecidableEq

/-- A file-system state: the answer of `os.Stat` for every name (`none` is an
error, such as a missing file). In every state `/` is a directory. -/
structure FileSystem where
  Stat : Str → Option FileInfo
  stat_root : Stat ['/'] = some ⟨true⟩

/-- The FastCGI parameter set, `map[string]string`. -/
abbrev Params := List (Str × Str)

/-- The `*http.Response` returned by `fcgi.Request`: its header map and its body
stream. -/
structure FcgiResponse where
  Header : Header
  Body : Reader
deriving DecidableEq

/-- The collaborators of the handler: the file-system state, the effect of
`http.ServeFile`, whether `fcgiclient.Dial` succeeds, the answer of `fcgi.Request`,
and the upper-case table of package `unicode` for the runes outside ASCII. -/
structure Env where
  fs : FileSystem
  serveFile : Request → Str → ResponseWriter → ResponseWriter
  dialOk : Bool
  fcgiRequest : Params → Reader → Option FcgiResponse
  unicodeToUpper : Char → Char

/-- The calls to the outside world, in the order they are made. -/
inductive Event where
  | stat (name : Str)
  | serveFile (name : Str)
  | dial
  | fcgiRequest (params : Params) (body : Reader)
  | close
  | log (msg : Str)
deriving DecidableEq

/-- The state threaded through the handler: the response writer, the trace of
calls, and whether the handler has panicked. -/
structure State where
  w : ResponseWriter
  trace : List Event
  panicked : Bool
deriving DecidableEq

/-- Append an event to the trace. -/
def State.emit (s : State) (e : Event) : State :=
  { s with trace := s.trace ++ [e] }

/-- Go `http.ServeFile(w, r, name)`. -/
def ServeFile (env : Env) (s : State) (r : Request) (name : Str) : State :=
  { (s.emit (.serveFile name)) with w := env.serveFile r name s.w }

/-! ## The program -/

/-- The cap on the request body, `int64(8 << 20)`. -/
def maxBodySize : Nat := 8 * 2 ^ 20

/-- Go `fileExists`: `err == nil && !info.IsDir()`. -/
def fileExists (fs : FileSystem) (path : Str) : Bool :=
  match fs.Stat path with
  | some info => !info.isDir
  | none => false

/-- The allow-list of `isStaticFile`. -/
def extensions : List Str :=
  [".js", ".css", ".png", ".jpeg", ".jpg", ".gif", ".ico", ".swf", ".flv", ".pdf", ".zip"]

/-- The loop of `isStaticFile` over the allow-list. -/
def extLoopStatic (ext : Str) : List Str → Bool
  | [] => false
  | e :: rest => if ext = e then true else extLoopStatic ext rest

/-- Go `isStaticFile`. -/
def isStaticFile (path : Str) : Bool :=
  extLoopStatic (ToLower (Ext path)) extensions

/-- The key of the derived parameter for a header name:
`"HTTP_" + strings.ToUpper(strings.ReplaceAll(k, "-", "_"))`. -/
def headerKey (upper : Char → Char) (k : Str) : Str :=
  ("HTTP_" : Str) ++ ToUpper upper (ReplaceAll k '-' '_')

/-- The loop `for k, v := range r.Header` of `servePHP`; `none` is the run-time
panic of `v[0]` on an empty value sequence. -/
def headerLoop (upper : Char → Char) : Header → Params → Option Params
  | [], params => some params
  | (k, v) :: rest, params =>
    match v with
    | [] => none
    | v0 :: _ => headerLoop upper rest (mapAssign params (headerKey upper k) v0)

/-- The fixed parameters of `servePHP`, the map literal. -/
def fixedParams (r : Request) (scriptPath documentRoot : Str) : Params :=
  [ ("SCRIPT_FILENAME", scriptPath),
    ("SCRIPT_NAME", r.Path),
    ("REQUEST_METHOD", r.Method),
    ("QUERY_STRING", r.RawQuery),
    ("CONTENT_TYPE", r.Header.Get "Content-Type"),
    ("CONTENT_LENGTH", r.Header.Get "Content-Length"),
    ("DOCUMENT_ROOT", documentRoot),
    ("SERVER_PROTOCOL", r.Proto),
    ("REMOTE_ADDR", r.RemoteAddr),
    ("REQUEST_URI", r.RequestURI),
    ("GATEWAY_INTERFACE", "CGI/1.1"),
    ("SERVER_SOFTWARE", "go/fcgi"),
    ("SERVER_NAME", r.Host),
    ("SERVER_PORT", "80") ]

/-- The parameter set `servePHP` passes to `fcgi.Request`. -/
def buildParams (upper : Char → Char) (r : Request) (scriptPath documentRoot : Str) :
    Option Params :=
  headerLoop upper r.Header (fixedParams r scriptPath documentRoot)

/-- The inner loop `for _, vv := range v` of the response relay. -/
def addValues (h : Header) (k : Str) : List Str → Header
  | [] => h
  | vv :: rest => addValues (h.Add k vv) k rest

/-- The loop `for k, v := range resp.Header` of the response relay. -/
def relayHeaders (h : Header) : Header → Header
  | [] => h
  | (k, v) :: rest => relayHeaders (addValues h k v) rest

/-- Go `io.Copy(w, resp.Body)` followed by the logging of its error. -/
def copyBody (s : State) (body : Reader) : State :=
  let s1 := { s with w := if body.data = [] then s.w else s.w.Write body.data }
  if body.err then s1.emit (.log "Помилка передачі відповіді:") else s1

/-- Go `servePHP`. -/
def servePHP (env : Env) (s : State) (r : Request) (scriptPath documentRoot : Str) : State :=
  let s := s.emit (.stat scriptPath)
  if !fileExists env.fs scriptPath then { s with w := NotFound s.w }
  else
    let s := s.emit .dial
    if !env.dialOk then
      { s with w := Error s.w "Не вдалося підключитися до php-fpm" 500 }
    else
      match buildParams env.unicodeToUpper r scriptPath documentRoot with
      | none => { (s.emit .close) with panicked := true }
      | some params =>
        let s := s.emit (.fcgiRequest params r.Body)
        match env.fcgiRequest params r.Body with
        | none => ({ s with w := Error s.w "Помилка обробки запиту" 500 }).emit .close
        | some resp =>
          let s := { s with w := { s.w with header := relayHeaders s.w.header resp.Header } }
          (copyBody s resp.Body).emit .close

/-- The loop over `tryFiles` in the handler, and the `http.NotFound` after it. -/
def tryFilesLoop (env : Env) (root : Str) (r : Request) : List Str → State → State
  | [], s => { s with w := NotFound s.w }
  | path :: rest, s =>
    let fullPath := Join root path
    let s := s.emit (.stat fullPath)
    if fileExists env.fs fullPath then
      if HasSuffix fullPath ".php" then servePHP env s r fullPath root
      else ServeFile env s r fullPath
    else tryFilesLoop env root r rest s

/-- The response writer and trace a request starts with. -/
def State.start : State := ⟨⟨[], none, []⟩, [], false⟩

/-- The handler of `main`. -/
def handler (env : Env) (root indexFile : Str) (req : Request) : State :=
  let r := { req with Body := MaxBytesReader req.Body maxBodySize }
  let w := State.start.w
  let s := { State.start with w := { w with header := w.header.Set "Charset" "utf-8" } }
  if r.Path = ("/favicon.ico" : Str) then { s with w := s.w.WriteHeader 404 }
  else if r.Path = ("/robots.txt" : Str) then
    let w1 := { s.w with header := s.w.header.Set "Content-Type" "text/plain" }
    { s with w := (w1.WriteHeader 200).Write "User-agent: *\nDisallow: /\n" }
  else
    let servePath : Str := r.Path
    let tryFiles : List Str := [servePath, servePath ++ ("/" : Str), ("/" : Str) ++ indexFile]
    if isStaticFile r.Path then
      let staticFilePath := Join root r.Path
      let s1 := s.emit (.stat staticFilePath)
      if fileExists env.fs staticFilePath then ServeFile env s1 r staticFilePath
      else tryFilesLoop env root r tryFiles s1
    else tryFilesLoop env root r tryFiles s

/-! ## Vocabulary of the statements and example inputs -/

/-- The request the handler works on: the body wrapped in `http.MaxBytesReader`. -/
def capped (req : Request) : Request :=
  { req with Body := MaxBytesReader req.Body maxBodySize }

/-- The response writer after `w.Header().Set("Charset", "utf-8")`. -/
def charsetWriter : ResponseWriter := ⟨[("Charset", ["utf-8"])], none, []⟩

/-- A file-system state with the given regular files and directories. -/
def mkFS (files dirs : List Str) : FileSystem :=
  ⟨fun p =>
      if p = [] then none
      else if p = ['/'] then some ⟨true⟩
      else if p ∈ files then some ⟨false⟩
      else if p ∈ dirs then some ⟨true⟩
      else none,
    by simp⟩

/-- A document root `/app/public` holding a script, some assets and a directory. -/
def exampleFS : FileSystem :=
  mkFS ["/app/public/index.php", "/app/public/app.js", "/app/public/favicon.ico",
      "/app/public/robots.txt", "/app/public/notes.txt"]
    ["/app", "/app/public", "/app/public/img"]

/-- An upstream that answers every request with one header and the body `hello`. -/
def exampleUpstream : Params → Reader → Option FcgiResponse :=
  fun _ _ => some ⟨[("Content-Type", ["text/html"])], ⟨"hello", false⟩⟩

/-- A static transfer that answers 200 with the file name as the body. -/
def exampleServeFile : Request → Str → ResponseWriter → ResponseWriter :=
  fun _ name w => w.Write name

/-- An upper-case table for the runes outside ASCII that knows the letter `é`. -/
def exampleToUpper : Char → Char :=
  fun c => if c = 'é' then 'É' else c

/-- An environment over `exampleFS`; `dialOk` tells whether the interpreter is reachable. -/
def exampleEnv (dialOk : Bool) : Env :=
  ⟨exampleFS, exampleServeFile, dialOk, exampleUpstream, exampleToUpper⟩

/-- A file system whose only file is `index.php` in the working directory. -/
def relativeIndexFS : FileSystem := mkFS ["index.php"] []

/-- An environment over `relativeIndexFS`, for a server started with an empty
document root. -/
def relativeIndexEnv : Env :=
  ⟨relativeIndexFS, exampleServeFile, true, exampleUpstream, exampleToUpper⟩

/-- A `GET` request for a path, with the given headers and an empty body. -/
def exampleRequest (path : Str) (hdr : Header) : Request :=
  ⟨"GET", path, "", hdr, "HTTP/1.1", "10.0.0.7:51234", path, "example.org", ⟨[], false⟩⟩

/-- Two header names the server's parser keeps apart, with the same derived key. -/
def collidingHeaders : Header :=
  [("X-Custom", ["value1"]), ("X_custom", ["value2"])]

/-- The last element of a path, in the words of the specification: what follows
the last separator, the whole path when it has none. -/
def lastElement : List Char → List Char
  | [] => []
  | c :: cs => if '/' ∈ cs then lastElement cs else if c = '/' then cs else c :: cs

/-- The suffix of a path element that starts at its last `.`, empty when the
element has none. -/
def fromLastDot : List Char → List Char
  | [] => []
  | c :: cs => if '.' ∈ cs then fromLastDot cs else if c = '.' then c :: cs else []

/-- The extension of a path in the words of the specification: the suffix
starting at the last `.` of the last path element, empty when there is none. -/
def specExtension (path : Str) : Str := fromLastDot (lastElement path)

/-- Two strings are case variants of each other when they have the same
lower-case form. -/
def caseVariant (a b : Str) : Prop := ToLower a = ToLower b

/-- The values a response header map holds for a canonical header name, entry
by entry in iteration order. -/
def relayed (n : Str) : Header → List Str
  | [] => []
  | (k, v) :: rest => (if CanonicalMIMEHeaderKey k = n then v else []) ++ relayed n rest

/-! ## The library models on the documented examples of the Go libraries -/

theorem Clean_examples :
    Clean "abc" = ("abc" : Str) ∧ Clean "a/b/c" = ("a/b/c" : Str) ∧ Clean "." = ("." : Str) ∧
    Clean ".." = (".." : Str) ∧ Clean "../../abc" = ("../../abc" : Str) ∧
    Clean "/abc" = ("/abc" : Str) ∧ Clean "/" = ("/" : Str) ∧ Clean "" = ("." : Str) ∧
    Clean "abc/" = ("abc" : Str) ∧ Clean "a/b/c/" = ("a/b/c" : Str) ∧ Clean "./" = ("." : Str) ∧
    Clean "../../" = ("../.." : Str) ∧ Clean "/abc/" = ("/abc" : Str) ∧
    Clean "abc//def//ghi" = ("abc/def/ghi" : Str) ∧ Clean "//abc" = ("/abc" : Str) ∧
    Clean "///abc" = ("/abc" : Str) ∧ Clean "//abc//" = ("/abc" : Str) ∧
    Clean "abc//" = ("abc" : Str) ∧ Clean "abc/./def" = ("abc/def" : Str) ∧
    Clean "/./abc/def" = ("/abc/def" : Str) ∧ Clean "abc/." = ("abc" : Str) ∧
    Clean "abc/def/ghi/../jkl" = ("abc/def/jkl" : Str) ∧
    Clean "abc/def/../ghi/../jkl" = ("abc/jkl" : Str) ∧ Clean "abc/def/.." = ("abc" : Str) ∧
    Clean "abc/def/../.." = ("." : Str) ∧ Clean "/abc/def/../.." = ("/" : Str) ∧
    Clean "abc/def/../../.." = (".." : Str) ∧ Clean "/abc/def/../../.." = ("/" : Str) ∧
    Clean "abc/def/../../../ghi/jkl/../../../mno" = ("../../mno" : Str) ∧
    Clean "/../abc" = ("/abc" : Str) ∧ Clean "a/../b:/../../c" = ("../c" : Str) ∧
    Clean "abc/./../def" = ("def" : Str) ∧ Clean "abc//./../def" = ("def" : Str) ∧
    Clean "abc/../../././../def" = ("../../def" : Str) := by
  decide

theorem Join_examples :
    Join "a" "b" = ("a/b" : Str) ∧ Join "a" "" = ("a" : Str) ∧ Join "" "b" = ("b" : Str) ∧
    Join "/" "a" = ("/a" : Str) ∧ Join "/" "" = ("/" : Str) ∧ Join "a/" "b" = ("a/b" : Str) ∧
    Join "a/" "" = ("a" : Str) ∧ Join "" "" = ("" : Str) ∧ Join "a" "../b" = ("b" : Str) ∧
    Join "/app/public" "/index.php" = ("/app/public/index.php" : Str) ∧
    Join "/app/public" "/blog/" = ("/app/public/blog" : Str) := by
  decide

theorem Ext_examples :
    Ext "path.go" = (".go" : Str) ∧ Ext "path.pb.go" = (".go" : Str) ∧
    Ext "a.dir/b" = ("" : Str) ∧ Ext "a.dir/b.go" = (".go" : Str) ∧ Ext "a.dir/" = ("" : Str) ∧
    Ext "index" = ("" : Str) ∧ Ext "index.js" = (".js" : Str) ∧
    Ext "main.test.js" = (".js" : Str) := by
  decide

theorem CanonicalMIMEHeaderKey_examples :
    CanonicalMIMEHeaderKey "a-b-c" = ("A-B-C" : Str) ∧
    CanonicalMIMEHeaderKey "a-1-c" = ("A-1-C" : Str) ∧
    CanonicalMIMEHeaderKey "User-Agent" = ("User-Agent" : Str) ∧
    CanonicalMIMEHeaderKey "uSER-aGENT" = ("User-Agent" : Str) ∧
    CanonicalMIMEHeaderKey "user-agent" = ("User-Agent" : Str) ∧
    CanonicalMIMEHeaderKey "USER-AGENT" = ("User-Agent" : Str) ∧
    CanonicalMIMEHeaderKey "foo-bar_baz" = ("Foo-Bar_baz" : Str) ∧
    CanonicalMIMEHeaderKey "foo-bar$baz" = ("Foo-Bar$baz" : Str) ∧
    CanonicalMIMEHeaderKey "foo-bar~baz" = ("Foo-Bar~baz" : Str) ∧
    CanonicalMIMEHeaderKey "foo-bar*baz" = ("Foo-Bar*baz" : Str) ∧
    CanonicalMIMEHeaderKey "üser-agenT" = ("üser-agenT" : Str) ∧
    CanonicalMIMEHeaderKey "a B" = ("a B" : Str) ∧
    CanonicalMIMEHeaderKey "C Ontent-Transfer-Encoding" = ("C Ontent-Transfer-Encoding" : Str) ∧
    CanonicalMIMEHeaderKey "foo bar" = ("foo bar" : Str) := by
  decide

/-! ## The handler, path by path -/

theorem handler_favicon (env : Env) (root indexFile : Str) (req : Request)
    (h : req.Path = ("/favicon.ico" : Str)) :
    handler env root indexFile req =
      ⟨⟨[("Charset", ["utf-8"])], some (404, [("Charset", ["utf-8"])]), []⟩, [], false⟩ := by
  simp [handler, h]
  exact ⟨rfl, rfl, rfl⟩

theorem handler_robots (env : Env) (root indexFile : Str) (req : Request)
    (h : req.Path = ("/robots.txt" : Str)) :
    handler env root indexFile req =
      ⟨⟨[("Charset", ["utf-8"]), ("Content-Type", ["text/plain"])],
        some (200, [("Charset", ["utf-8"]), ("Content-Type", ["text/plain"])]),
        "User-agent: *\nDisallow: /\n"⟩, [], false⟩ := by
  simp [handler, h]
  exact ⟨rfl, rfl, rfl⟩

theorem handler_resolution (env : Env) (root indexFile : Str) (req : Request)
    (hfav : req.Path ≠ ("/favicon.ico" : Str)) (hrob : req.Path ≠ ("/robots.txt" : Str)) :
    handler env root indexFile req =
      if isStaticFile req.Path then
        if fileExists env.fs (Join root req.Path) then
          ServeFile env ⟨charsetWriter, [.stat (Join root req.Path)], false⟩ (capped req)
            (Join root req.Path)
        else
          tryFilesLoop env root (capped req)
            [req.Path, req.Path ++ ("/" : Str), ("/" : Str) ++ indexFile]
            ⟨charsetWriter, [.stat (Join root req.Path)], false⟩
      else
        tryFilesLoop env root (capped req)
          [req.Path, req.Path ++ ("/" : Str), ("/" : Str) ++ indexFile]
          ⟨charsetWriter, [], false⟩ := by
  simp only [handler, if_neg hfav, if_neg hrob]
  rfl

/-! ## Lemmas on `filepath.Clean` and `filepath.Join` -/

theorem splitSlash_ne_nil (s : List Char) : splitSlash s ≠ [] := by
  cases s with
  | nil => simp [splitSlash]
  | cons c cs =>
    unfold splitSlash
    split
    · simp
    · split <;> simp

theorem splitSlash_append_slash (a b : List Char) :
    splitSlash (a ++ '/' :: b) = splitSlash a ++ splitSlash b := by
  induction a with
  | nil => simp [splitSlash]
  | cons c cs ih =>
    by_cases hc : c = '/'
    · simp [splitSlash, hc, ih]
    · have hne := splitSlash_ne_nil cs
      simp only [List.cons_append, splitSlash, if_neg hc, ih]
      cases hs : splitSlash cs with
      | nil => exact absurd hs hne
      | cons e es =>
        have ih2 : splitSlash (cs.append ('/' :: b)) = (e :: es) ++ splitSlash b := by
          rw [← hs, ← ih]; rfl
        rw [ih2]; rfl

theorem cleanStep_nil (rooted : Bool) (out : List Char × Nat) : cleanStep rooted out [] = out := by
  simp [cleanStep]

theorem Clean_append_slash (s : Str) (hs : s ≠ []) : Clean (s ++ ['/']) = Clean s := by
  cases s with
  | nil => exact absurd rfl hs
  | cons c cs =>
    have h1 : splitSlash (cs ++ ['/']) = splitSlash cs ++ [[]] := by
      rw [splitSlash_append_slash]; rfl
    have h2 : splitSlash (c :: cs ++ ['/']) = splitSlash (c :: cs) ++ [[]] := by
      rw [splitSlash_append_slash]; rfl
    by_cases hc : c = '/'
    · simp [Clean, hc, h1, List.foldl_append, cleanStep_nil]
    · simp only [Clean, List.cons_append, List.head?_cons, Option.some.injEq, hc, decide_False,
        if_false, List.cons_ne_nil]
      have h2' : splitSlash (c :: (cs ++ ['/'])) = splitSlash (c :: cs) ++ [[]] := h2
      simp [h2', List.foldl_append, cleanStep_nil]

theorem Clean_double_slash (a b : Str) (ha : a ≠ []) :
    Clean (a ++ '/' :: '/' :: b) = Clean (a ++ '/' :: b) := by
  cases a with
  | nil => exact absurd rfl ha
  | cons c cs =>
    have key : ∀ (x : List Char) (rooted : Bool) (init : List Char × Nat),
        (splitSlash (x ++ '/' :: '/' :: b)).foldl (cleanStep rooted) init =
          (splitSlash (x ++ '/' :: b)).foldl (cleanStep rooted) init := by
      intro x rooted init
      rw [splitSlash_append_slash, splitSlash_append_slash x b]
      simp [splitSlash, List.foldl_append, cleanStep_nil]
    by_cases hc : c = '/'
    · simp [Clean, hc, key]
    · have k := key (c :: cs) false ([], 0)
      simp only [List.cons_append] at k
      simp [Clean, hc, k]

theorem Join_slash_suffix (root p : Str) (h : root ≠ [] ∨ p ≠ []) :
    Join root (p ++ ("/" : Str)) = Join root p := by
  by_cases hr : root = []
  · have hp : p ≠ [] := by
      rcases h with h | h
      · exact absurd hr h
      · exact h
    simp [Join, hr, hp]
    exact Clean_append_slash p hp
  · simp only [Join, ne_eq, hr, not_false_eq_true, if_true]
    have := Clean_append_slash (root ++ '/' :: p) (by simp)
    simpa using this

theorem Join_slash_index (root indexFile : Str) (hr : root ≠ []) :
    Join root (("/" : Str) ++ indexFile) = Join root indexFile := by
  simp only [Join, ne_eq, hr, not_false_eq_true, if_true]
  exact Clean_double_slash root indexFile hr

theorem Join_empty_slash (fs : FileSystem) : fileExists fs (Join [] ("/" : Str)) = false := by
  have : Join [] ("/" : Str) = ['/'] := by decide
  simp [this, fileExists, fs.stat_root]

theorem fileExists_slash_suffix (fs : FileSystem) (root p : Str)
    (h : fileExists fs (Join root p) = false) :
    fileExists fs (Join root (p ++ ("/" : Str))) = false := by
  by_cases hne : root ≠ [] ∨ p ≠ []
  · rw [Join_slash_suffix root p hne]; exact h
  · simp only [not_or, not_not] at hne
    rw [hne.1, hne.2]
    exact Join_empty_slash fs

/-! ## Lemmas on `strings.HasSuffix` and `filepath.Ext` -/

theorem HasSuffix_iff (s x : Str) : HasSuffix s x = true ↔ ∃ t, s = t ++ x := by
  constructor
  · intro h
    simp only [HasSuffix, Bool.and_eq_true, decide_eq_true_eq] at h
    refine ⟨s.take (s.length - x.length), ?_⟩
    conv_lhs => rw [← List.take_append_drop (s.length - x.length) s]
    rw [h.2]
  · rintro ⟨t, rfl⟩
    simp [HasSuffix]

theorem extLoop_suffix (rev acc : List Char) :
    extLoop rev acc = [] ∨ ∃ pre, rev.reverse ++ acc = pre ++ extLoop rev acc := by
  induction rev generalizing acc with
  | nil => left; rfl
  | cons c rest ih =>
    by_cases h1 : c = '/'
    · left; simp [extLoop, h1]
    · by_cases h2 : c = '.'
      · right
        refine ⟨rest.reverse, ?_⟩
        simp [extLoop, h2]
      · rcases ih (c :: acc) with h | ⟨pre, h⟩
        · left; simp [extLoop, h1, h2, h]
        · right
          refine ⟨pre, ?_⟩
          simp only [extLoop, if_neg h1, if_neg h2, List.reverse_cons, List.append_assoc,
            List.singleton_append]
          exact h

theorem Ext_suffix (s : Str) : Ext s = [] ∨ ∃ pre, s = pre ++ Ext s := by
  rcases extLoop_suffix s.reverse [] with h | ⟨pre, h⟩
  · left; exact h
  · right; exact ⟨pre, by simpa [Ext] using h⟩

theorem Ext_append_php (t : Str) : Ext (t ++ (".php" : Str)) = (".php" : Str) := by
  simp [Ext, extLoop]

theorem HasSuffix_php_iff (s : Str) : HasSuffix s ".php" = true ↔ Ext s = (".php" : Str) := by
  constructor
  · intro h
    obtain ⟨t, rfl⟩ := (HasSuffix_iff _ _).1 h
    exact Ext_append_php t
  · intro h
    rcases Ext_suffix s with h0 | ⟨pre, hp⟩
    · rw [h] at h0; exact absurd h0 (by decide)
    · rw [h] at hp
      exact (HasSuffix_iff _ _).2 ⟨pre, hp⟩

/-! ## The `tryFiles` loop -/

theorem tryFilesLoop_first (env : Env) (root : Str) (r : Request) (pre post : List Str) (c : Str)
    (s : State) (hpre : ∀ x ∈ pre, fileExists env.fs (Join root x) = false)
    (hc : fileExists env.fs (Join root c) = true) :
    tryFilesLoop env root r (pre ++ c :: post) s =
      if HasSuffix (Join root c) ".php" then
        servePHP env
          ⟨s.w, s.trace ++ pre.map (fun x => Event.stat (Join root x)) ++ [.stat (Join root c)],
            s.panicked⟩ r (Join root c) root
      else
        ServeFile env
          ⟨s.w, s.trace ++ pre.map (fun x => Event.stat (Join root x)) ++ [.stat (Join root c)],
            s.panicked⟩ r (Join root c) := by
  induction pre generalizing s with
  | nil => simp [tryFilesLoop, hc, State.emit]
  | cons x xs ih =>
    have hx : fileExists env.fs (Join root x) = false := hpre x (by simp)
    have := ih (s.emit (.stat (Join root x))) (fun y hy => hpre y (by simp [hy]))
    simp only [List.cons_append, tryFilesLoop, hx]
    simpa [State.emit] using this

theorem tryFilesLoop_none (env : Env) (root : Str) (r : Request) (l : List Str) (s : State)
    (hl : ∀ x ∈ l, fileExists env.fs (Join root x) = false) :
    tryFilesLoop env root r l s =
      ⟨NotFound s.w, s.trace ++ l.map (fun x => Event.stat (Join root x)), s.panicked⟩ := by
  induction l generalizing s with
  | nil => simp [tryFilesLoop]
  | cons x xs ih =>
    have hx : fileExists env.fs (Join root x) = false := hl x (by simp)
    have := ih (s.emit (.stat (Join root x))) (fun y hy => hl y (by simp [hy]))
    simp only [tryFilesLoop, hx]
    simpa [State.emit] using this

/-- C10. The special routes are decided before resolution and without looking at
the file system: for every environment (every file-system state, whatever
`http.ServeFile` and the upstream do), document root and index file, a request
whose URL path is exactly `/favicon.ico` gets status 404 and an empty body, and a
request whose URL path is exactly `/robots.txt` gets status 200, the header
`Content-Type: text/plain` (in the header map and among the headers sent) and the
body `"User-agent: *\nDisallow: /\n"`. In both cases the trace is empty: no file
is stat-ed, no static file is served and no upstream connection is made. -/
theorem special_routes (env : Env) (root indexFile : Str) (req : Request) :
    (req.Path = ("/favicon.ico" : Str) →
      (handler env root indexFile req).w.status = some 404 ∧
      (handler env root indexFile req).w.body = [] ∧
      (handler env root indexFile req).trace = []) ∧
    (req.Path = ("/robots.txt" : Str) →
      (handler env root indexFile req).w.status = some 200 ∧
      (handler env root indexFile req).w.wrote =
        some (200, ([("Charset", ["utf-8"]), ("Content-Type", ["text/plain"])] : Header)) ∧
      (handler env root indexFile req).w.header.Values "Content-Type" = [("text/plain" : Str)] ∧
      (handler env root indexFile req).w.body = ("User-agent: *\nDisallow: /\n" : Str) ∧
      (handler env root indexFile req).trace = []) := by
  constructor
  · intro h
    rw [handler_favicon env root indexFile req h]
    exact ⟨rfl, rfl, rfl⟩
  · intro h
    rw [handler_robots env root indexFile req h]
    exact ⟨rfl, rfl, by decide, rfl, rfl⟩

theorem special_routes_witness :
    fileExists exampleFS ("/app/public/favicon.ico" : Str) = true ∧
    fileExists exampleFS ("/app/public/robots.txt" : Str) = true ∧
    (handler (exampleEnv true) "/app/public" "index.php"
        (exampleRequest "/favicon.ico" [])).w.status = some 404 ∧
    (handler (exampleEnv true) "/app/public" "index.php"
        (exampleRequest "/robots.txt" [])).w.body = ("User-agent: *\nDisallow: /\n" : Str) :=
  ⟨by decide, by decide,
    ((special_routes (exampleEnv true) "/app/public" "index.php"
      (exampleRequest "/favicon.ico" [])).1 rfl).1,
    ((special_routes (exampleEnv true) "/app/public" "index.php"
      (exampleRequest "/robots.txt" [])).2 rfl).2.2.2.1⟩

/-- C2. For a request path that is not a special route: if `isStaticFile` holds of
the path and the join of the document root with the path is an existing
non-directory file, the handler ends with `http.ServeFile` on exactly that joined
path. Its trace is the one stat of the short-circuit test followed by the static
transfer, so no fallback candidate is stat-ed and `servePHP` is not called (no
dial, no upstream request), and the response is whatever the static transfer
makes of the writer that carries only the `Charset` header. -/
theorem static_short_circuit (env : Env) (root indexFile : Str) (req : Request)
    (hfav : req.Path ≠ ("/favicon.ico" : Str)) (hrob : req.Path ≠ ("/robots.txt" : Str))
    (hstatic : isStaticFile req.Path = true)
    (hexists : fileExists env.fs (Join root req.Path) = true) :
    handler env root indexFile req =
        ServeFile env ⟨charsetWriter, [.stat (Join root req.Path)], false⟩ (capped req)
          (Join root req.Path) ∧
      (handler env root indexFile req).trace =
        [.stat (Join root req.Path), .serveFile (Join root req.Path)] ∧
      (handler env root indexFile req).w =
        env.serveFile (capped req) (Join root req.Path) charsetWriter := by
  rw [handler_resolution env root indexFile req hfav hrob]
  simp [hstatic, hexists, ServeFile, State.emit]

theorem static_short_circuit_witness :
    (handler (exampleEnv true) "/app/public" "index.php" (exampleRequest "/app.js" [])).trace =
      [.stat ("/app/public/app.js" : Str), .serveFile ("/app/public/app.js" : Str)] :=
  (static_short_circuit (exampleEnv true) "/app/public" "index.php" (exampleRequest "/app.js" [])
    (by decide) (by decide) (by decide) (by decide)).2.1

theorem handler_first_candidate (env : Env) (root indexFile : Str) (req : Request)
    (pre post : List Str) (c : Str)
    (hfav : req.Path ≠ ("/favicon.ico" : Str)) (hrob : req.Path ≠ ("/robots.txt" : Str))
    (hshort : ¬ (isStaticFile req.Path = true ∧ fileExists env.fs (Join root req.Path) = true))
    (hsplit : [req.Path, req.Path ++ ("/" : Str), ("/" : Str) ++ indexFile] = pre ++ c :: post)
    (hpre : ∀ x ∈ pre, fileExists env.fs (Join root x) = false)
    (hc : fileExists env.fs (Join root c) = true) :
    handler env root indexFile req =
      if HasSuffix (Join root c) ".php" then
        servePHP env
          ⟨charsetWriter,
            (if isStaticFile req.Path then [Event.stat (Join root req.Path)] else []) ++
              pre.map (fun x => Event.stat (Join root x)) ++ [.stat (Join root c)],
            false⟩ (capped req) (Join root c) root
      else
        ServeFile env
          ⟨charsetWriter,
            (if isStaticFile req.Path then [Event.stat (Join root req.Path)] else []) ++
              pre.map (fun x => Event.stat (Join root x)) ++ [.stat (Join root c)],
            false⟩ (capped req) (Join root c) := by
  rw [handler_resolution env root indexFile req hfav hrob, hsplit]
  by_cases hs : isStaticFile req.Path = true
  · have hne : fileExists env.fs (Join root req.Path) = false := by
      cases h : fileExists env.fs (Join root req.Path)
      · rfl
      · exact absurd ⟨hs, h⟩ hshort
    simp only [hs, hne, if_true]
    rw [tryFilesLoop_first env root (capped req) pre post c _ hpre hc]
    simp
  · have hs' : isStaticFile req.Path = false := by simpa using hs
    simp only [hs', Bool.false_eq_true, if_false]
    rw [tryFilesLoop_first env root (capped req) pre post c _ hpre hc]

/-- C3. For a request path that is not a special route and is not taken by the
static short-circuit: if the candidate list
`[path, path + "/", "/" + indexFile]` splits as `pre ++ c :: post` where no joined
candidate of `pre` is an existing non-directory file and the joined `c` is, the
handler acts on the joined `c` and on nothing else: after the stats of `pre` and of
`c` (preceded by the stat of a failed short-circuit test when the path has a static
extension) it calls `servePHP` on the joined `c` when that path ends in `.php`, that
is when its extension is `.php`, and `http.ServeFile` on it otherwise. The result
does not depend on `post`; in the static case the trace ends with the transfer of
the joined `c`, so no later candidate is stat-ed. -/
theorem try_files_first_match (env : Env) (root indexFile : Str) (req : Request)
    (pre post : List Str) (c : Str)
    (hfav : req.Path ≠ ("/favicon.ico" : Str)) (hrob : req.Path ≠ ("/robots.txt" : Str))
    (hshort : ¬ (isStaticFile req.Path = true ∧ fileExists env.fs (Join root req.Path) = true))
    (hsplit : [req.Path, req.Path ++ ("/" : Str), ("/" : Str) ++ indexFile] = pre ++ c :: post)
    (hpre : ∀ x ∈ pre, fileExists env.fs (Join root x) = false)
    (hc : fileExists env.fs (Join root c) = true) :
    (handler env root indexFile req =
      if HasSuffix (Join root c) ".php" then
        servePHP env
          ⟨charsetWriter,
            (if isStaticFile req.Path then [Event.stat (Join root req.Path)] else []) ++
              pre.map (fun x => Event.stat (Join root x)) ++ [.stat (Join root c)],
            false⟩ (capped req) (Join root c) root
      else
        ServeFile env
          ⟨charsetWriter,
            (if isStaticFile req.Path then [Event.stat (Join root req.Path)] else []) ++
              pre.map (fun x => Event.stat (Join root x)) ++ [.stat (Join root c)],
            false⟩ (capped req) (Join root c)) ∧
    (HasSuffix (Join root c) ".php" = true ↔ Ext (Join root c) = (".php" : Str)) ∧
    (HasSuffix (Join root c) ".php" = false →
      (handler env root indexFile req).trace =
        (if isStaticFile req.Path then [Event.stat (Join root req.Path)] else []) ++
          pre.map (fun x => Event.stat (Join root x)) ++
          [.stat (Join root c), .serveFile (Join root c)]) := by
  have h := handler_first_candidate env root indexFile req pre post c hfav hrob hshort hsplit
    hpre hc
  refine ⟨h, HasSuffix_php_iff _, ?_⟩
  intro hno
  rw [h, hno]
  simp [ServeFile, State.emit]

theorem try_files_first_match_witness :
    (handler (exampleEnv true) "/app/public" "index.php" (exampleRequest "/notes.txt" [])).trace =
      [.stat ("/app/public/notes.txt" : Str), .serveFile ("/app/public/notes.txt" : Str)] := by
  have h := (try_files_first_match (exampleEnv true) "/app/public" "index.php"
    (exampleRequest "/notes.txt" []) [] [("/notes.txt/" : Str), ("/index.php" : Str)]
    ("/notes.txt" : Str) (by decide) (by decide) (by decide) (by decide) (by simp) (by decide)).1
  rw [h]
  decide

/-- C5. For a request path that is not a special route: if none of the three
joined candidates (`path`, `path + "/"`, `"/" + indexFile`) is an existing
non-directory file, the handler answers with `http.NotFound`: the status is 404,
and the trace holds only stats (the three candidates, after the stat of the failed
short-circuit test when the path has a static extension), so no static transfer
happens and no upstream connection is attempted. -/
theorem not_found (env : Env) (root indexFile : Str) (req : Request)
    (hfav : req.Path ≠ ("/favicon.ico" : Str)) (hrob : req.Path ≠ ("/robots.txt" : Str))
    (h1 : fileExists env.fs (Join root req.Path) = false)
    (h2 : fileExists env.fs (Join root (req.Path ++ ("/" : Str))) = false)
    (h3 : fileExists env.fs (Join root (("/" : Str) ++ indexFile)) = false) :
    (handler env root indexFile req).w = NotFound charsetWriter ∧
    (handler env root indexFile req).w.status = some 404 ∧
    (handler env root indexFile req).trace =
      (if isStaticFile req.Path then [Event.stat (Join root req.Path)] else []) ++
        [.stat (Join root req.Path), .stat (Join root (req.Path ++ ("/" : Str))),
          .stat (Join root (("/" : Str) ++ indexFile))] ∧
    (∀ e ∈ (handler env root indexFile req).trace, ∃ name, e = Event.stat name) ∧
    (handler env root indexFile req).panicked = false := by
  have hall : ∀ x ∈ [req.Path, req.Path ++ ("/" : Str), ("/" : Str) ++ indexFile],
      fileExists env.fs (Join root x) = false := by
    intro x hx
    simp only [List.mem_cons, List.mem_singleton, List.not_mem_nil, or_false] at hx
    rcases hx with rfl | rfl | rfl
    · exact h1
    · exact h2
    · exact h3
  have hstatus : (NotFound charsetWriter).status = some 404 := by decide
  rw [handler_resolution env root indexFile req hfav hrob]
  by_cases hs : isStaticFile req.Path = true
  · simp only [hs, h1, if_true, Bool.false_eq_true, if_false]
    rw [tryFilesLoop_none env root (capped req) _ _ hall]
    refine ⟨rfl, hstatus, by simp, ?_, rfl⟩
    intro e he
    simp at he
    rcases he with rfl | rfl | rfl | rfl <;> exact ⟨_, rfl⟩
  · have hs' : isStaticFile req.Path = false := by simpa using hs
    simp only [hs', Bool.false_eq_true, if_false]
    rw [tryFilesLoop_none env root (capped req) _ _ hall]
    refine ⟨rfl, hstatus, by simp, ?_, rfl⟩
    intro e he
    simp at he
    rcases he with rfl | rfl | rfl <;> exact ⟨_, rfl⟩

theorem not_found_witness :
    (handler (exampleEnv true) "/app/public" "home.html" (exampleRequest "/missing.css" [])).w.status
        = some 404 ∧
    (handler (exampleEnv true) "/app/public" "home.html" (exampleRequest "/missing.css" [])).trace =
      [.stat ("/app/public/missing.css" : Str), .stat ("/app/public/missing.css" : Str),
        .stat ("/app/public/missing.css" : Str), .stat ("/app/public/home.html" : Str)] := by
  have h := not_found (exampleEnv true) "/app/public" "home.html"
    (exampleRequest "/missing.css" []) (by decide) (by decide) (by decide) (by decide) (by decide)
  exact ⟨h.2.1, h.2.2.1.trans (by decide)⟩

theorem servePHP_trace (env : Env) (s : State) (r : Request) (scriptPath documentRoot : Str)
    (hex : fileExists env.fs scriptPath = true) :
    ∃ rest, (servePHP env s r scriptPath documentRoot).trace =
      s.trace ++ [.stat scriptPath, .dial] ++ rest := by
  unfold servePHP
  by_cases h2 : env.dialOk = true
  · cases h3 : buildParams env.unicodeToUpper r scriptPath documentRoot with
    | none => exact ⟨[.close], by simp [hex, h2, h3, State.emit]⟩
    | some ps =>
      cases h4 : env.fcgiRequest ps r.Body with
      | none => exact ⟨[.fcgiRequest ps r.Body, .close], by simp [hex, h2, h3, h4, State.emit]⟩
      | some resp =>
        by_cases h5 : resp.Body.err = true
        · exact ⟨[.fcgiRequest ps r.Body, .log "Помилка передачі відповіді:", .close], by
            simp [hex, h2, h3, h4, h5, State.emit, copyBody]⟩
        · exact ⟨[.fcgiRequest ps r.Body, .close], by
            simp [hex, h2, h3, h4, h5, State.emit, copyBody]⟩
  · exact ⟨[], by simp [hex, h2, State.emit]⟩

/-- C4 fails as stated. With an empty document root the join of the root with the
index file name is the relative name `index.php`, while the third candidate of the
handler is the join of the root with `"/" + indexFile`, the absolute name
`/index.php`. In a file system whose only file is `index.php` in the working
directory, the request path `/x` is not an existing file and the join of the root
with the index file name is; the handler stats `/x`, `/x` and `/index.php` and
answers with `http.NotFound`, status 404, not with the index file. -/
theorem index_fallback_empty_root :
    (exampleRequest "/x" []).Path ≠ ("/favicon.ico" : Str) ∧
    (exampleRequest "/x" []).Path ≠ ("/robots.txt" : Str) ∧
    fileExists relativeIndexEnv.fs (Join [] (exampleRequest "/x" []).Path) = false ∧
    Join [] ("index.php" : Str) = ("index.php" : Str) ∧
    fileExists relativeIndexEnv.fs (Join [] ("index.php" : Str)) = true ∧
    Join [] (("/" : Str) ++ ("index.php" : Str)) = ("/index.php" : Str) ∧
    (handler relativeIndexEnv [] "index.php" (exampleRequest "/x" [])).trace =
      [.stat ("/x" : Str), .stat ("/x" : Str), .stat ("/index.php" : Str)] ∧
    (handler relativeIndexEnv [] "index.php" (exampleRequest "/x" [])).w =
      NotFound charsetWriter ∧
    (handler relativeIndexEnv [] "index.php" (exampleRequest "/x" [])).w.status = some 404 := by
  decide

/-- C4, amended. For a request path `p` that is not a special route: if the join of
the document root with `p` is not an existing non-directory file while the third
candidate of the handler, the join of the document root with `"/" + indexFile`, is
one, the handler acts on that joined index path: `servePHP` on it when it ends in
`.php`, that is when its extension is `.php`, and `http.ServeFile` on it otherwise.
For a non-empty document root the joined index path is the join of the document
root with the index file name itself. This holds whether or not `p` has a
static-asset extension (then the failed short-circuit test adds one stat). The
intermediate candidate `p + "/"` cannot match: its join is not an existing
non-directory file either. In the static case the trace is the stats of the three
candidates followed by the transfer of the joined index path, and the response is
what the transfer makes of the writer with the `Charset` header; in the script case
the trace goes on, after the stats of the three candidates, with the stat of the
joined index path by `servePHP` and the dial. -/
theorem index_fallback (env : Env) (root indexFile : Str) (req : Request)
    (hfav : req.Path ≠ ("/favicon.ico" : Str)) (hrob : req.Path ≠ ("/robots.txt" : Str))
    (hp : fileExists env.fs (Join root req.Path) = false)
    (hidx : fileExists env.fs (Join root (("/" : Str) ++ indexFile)) = true) :
    (handler env root indexFile req =
      if HasSuffix (Join root (("/" : Str) ++ indexFile)) ".php" then
        servePHP env
          ⟨charsetWriter,
            (if isStaticFile req.Path then [Event.stat (Join root req.Path)] else []) ++
              [.stat (Join root req.Path), .stat (Join root (req.Path ++ ("/" : Str))),
                .stat (Join root (("/" : Str) ++ indexFile))],
            false⟩ (capped req) (Join root (("/" : Str) ++ indexFile)) root
      else
        ServeFile env
          ⟨charsetWriter,
            (if isStaticFile req.Path then [Event.stat (Join root req.Path)] else []) ++
              [.stat (Join root req.Path), .stat (Join root (req.Path ++ ("/" : Str))),
                .stat (Join root (("/" : Str) ++ indexFile))],
            false⟩ (capped req) (Join root (("/" : Str) ++ indexFile))) ∧
    fileExists env.fs (Join root (req.Path ++ ("/" : Str))) = false ∧
    (HasSuffix (Join root (("/" : Str) ++ indexFile)) ".php" = true ↔
      Ext (Join root (("/" : Str) ++ indexFile)) = (".php" : Str)) ∧
    (root ≠ [] → Join root (("/" : Str) ++ indexFile) = Join root indexFile) ∧
    (HasSuffix (Join root (("/" : Str) ++ indexFile)) ".php" = false →
      (handler env root indexFile req).trace =
        (if isStaticFile req.Path then [Event.stat (Join root req.Path)] else []) ++
          [.stat (Join root req.Path), .stat (Join root (req.Path ++ ("/" : Str))),
            .stat (Join root (("/" : Str) ++ indexFile)),
            .serveFile (Join root (("/" : Str) ++ indexFile))] ∧
      (handler env root indexFile req).w =
        env.serveFile (capped req) (Join root (("/" : Str) ++ indexFile)) charsetWriter) ∧
    (HasSuffix (Join root (("/" : Str) ++ indexFile)) ".php" = true →
      ∃ rest, (handler env root indexFile req).trace =
        (if isStaticFile req.Path then [Event.stat (Join root req.Path)] else []) ++
          [.stat (Join root req.Path), .stat (Join root (req.Path ++ ("/" : Str))),
            .stat (Join root (("/" : Str) ++ indexFile)),
            .stat (Join root (("/" : Str) ++ indexFile)), .dial] ++ rest) := by
  have h2 := fileExists_slash_suffix env.fs root req.Path hp
  have h := handler_first_candidate env root indexFile req
    [req.Path, req.Path ++ ("/" : Str)] [] (("/" : Str) ++ indexFile) hfav hrob
    (by rw [hp]; simp) (by simp)
    (by
      intro x hx
      simp only [List.mem_cons, List.mem_singleton, List.not_mem_nil, or_false] at hx
      rcases hx with rfl | rfl
      · exact hp
      · exact h2)
    hidx
  refine ⟨?_, h2, HasSuffix_php_iff _, Join_slash_index root indexFile, ?_, ?_⟩
  · rw [h]
    simp
  · intro hno
    rw [h, hno]
    simp [ServeFile, State.emit]
  · intro hyes
    rw [h, hyes]
    obtain ⟨rest, hrest⟩ := servePHP_trace env
      ⟨charsetWriter,
        (if isStaticFile req.Path then [Event.stat (Join root req.Path)] else []) ++
          List.map (fun x => Event.stat (Join root x)) [req.Path, req.Path ++ ("/" : Str)] ++
          [Event.stat (Join root (("/" : Str) ++ indexFile))],
        false⟩ (capped req) (Join root (("/" : Str) ++ indexFile)) root hidx
    refine ⟨rest, ?_⟩
    simp only [if_true]
    rw [hrest]
    simp

theorem index_fallback_witness :
    isStaticFile ("/img/logo.png" : Str) = true ∧
    (handler (exampleEnv false) "/app/public" "index.php"
        (exampleRequest "/img/logo.png" [])).trace =
      [.stat ("/app/public/img/logo.png" : Str), .stat ("/app/public/img/logo.png" : Str),
        .stat ("/app/public/img/logo.png" : Str), .stat ("/app/public/index.php" : Str),
        .stat ("/app/public/index.php" : Str), .dial] ∧
    (handler (exampleEnv true) "/app/public" "notes.txt" (exampleRequest "/blog" [])).trace =
      [.stat ("/app/public/blog" : Str), .stat ("/app/public/blog" : Str),
        .stat ("/app/public/notes.txt" : Str), .serveFile ("/app/public/notes.txt" : Str)] := by
  have h := (index_fallback (exampleEnv false) "/app/public" "index.php"
    (exampleRequest "/img/logo.png" []) (by decide) (by decide) (by decide) (by decide)).1
  have h2 := ((index_fallback (exampleEnv true) "/app/public" "notes.txt"
    (exampleRequest "/blog" []) (by decide) (by decide) (by decide) (by decide)).2.2.2.2.1
      (by decide)).1
  refine ⟨by decide, ?_, h2.trans (by decide)⟩
  rw [h]
  decide

/-! ## `servePHP` when the interpreter cannot be reached -/

theorem Error_status (w : ResponseWriter) (msg : Str) (code : Nat) (hw : w.wrote = none) :
    (Error w msg code).status = some code := by
  simp [Error, ResponseWriter.Write, ResponseWriter.WriteHeader, ResponseWriter.status, hw]

theorem servePHP_dial_fail (env : Env) (s : State) (r : Request) (scriptPath documentRoot : Str)
    (hdial : env.dialOk = false) :
    servePHP env s r scriptPath documentRoot =
      if fileExists env.fs scriptPath then
        ⟨Error s.w "Не вдалося підключитися до php-fpm" 500,
          s.trace ++ [.stat scriptPath, .dial], s.panicked⟩
      else ⟨NotFound s.w, s.trace ++ [.stat scriptPath], s.panicked⟩ := by
  cases h : fileExists env.fs scriptPath <;> simp [servePHP, h, hdial, State.emit]

/-- The invariant of a run without a reachable interpreter: a dial in the trace
comes with status 500, and no request was sent upstream. -/
theorem tryFilesLoop_dial_fail (env : Env) (root : Str) (r : Request) (hdial : env.dialOk = false)
    (l : List Str) (s : State) (hw : s.w.wrote = none) (hd : Event.dial ∉ s.trace)
    (hq : ∀ params body, Event.fcgiRequest params body ∉ s.trace) :
    (Event.dial ∈ (tryFilesLoop env root r l s).trace →
        (tryFilesLoop env root r l s).w.status = some 500) ∧
      ∀ params body, Event.fcgiRequest params body ∉ (tryFilesLoop env root r l s).trace := by
  induction l generalizing s with
  | nil =>
    simp only [tryFilesLoop]
    exact ⟨fun h => absurd h hd, hq⟩
  | cons x xs ih =>
    simp only [tryFilesLoop]
    by_cases hx : fileExists env.fs (Join root x) = true
    · simp only [hx, if_true]
      by_cases hphp : HasSuffix (Join root x) ".php" = true
      · simp only [hphp, if_true]
        rw [servePHP_dial_fail env _ r _ root hdial]
        simp only [hx, if_true]
        refine ⟨fun _ => Error_status _ _ _ (by simpa [State.emit] using hw), ?_⟩
        intro params body hmem
        simp [State.emit] at hmem
        exact hq params body hmem
      · simp only [hphp, Bool.false_eq_true, if_false]
        constructor
        · intro hmem
          simp [ServeFile, State.emit] at hmem
          exact absurd hmem hd
        · intro params body hmem
          simp [ServeFile, State.emit] at hmem
          exact hq params body hmem
    · simp only [hx, Bool.false_eq_true, if_false]
      apply ih
      · simpa [State.emit] using hw
      · simpa [State.emit] using hd
      · intro params body hmem
        simp [State.emit] at hmem
        exact hq params body hmem

/-- C8. When the connection to the interpreter cannot be established
(`fcgiclient.Dial` fails): every run of the handler that reaches the dial, that is
every request resolved to an existing script file, ends with status 500, a status
of the 5xx class to which 502 belongs; no run sends a request (parameters and
body) upstream; and `servePHP` itself, called on an existing script with the header
not yet written, stops right after the failed dial with status 500. -/
theorem dial_failure (env : Env) (root indexFile : Str) (req : Request)
    (hdial : env.dialOk = false) :
    (Event.dial ∈ (handler env root indexFile req).trace →
      ∃ code, (handler env root indexFile req).w.status = some code ∧ code = 500 ∧
        code / 100 = 502 / 100) ∧
    (∀ params body, Event.fcgiRequest params body ∉ (handler env root indexFile req).trace) ∧
    (∀ (s : State) (scriptPath : Str), s.w.wrote = none → fileExists env.fs scriptPath = true →
      (servePHP env s (capped req) scriptPath root).w.status = some 500 ∧
      (servePHP env s (capped req) scriptPath root).trace =
        s.trace ++ [.stat scriptPath, .dial]) := by
  have key : (Event.dial ∈ (handler env root indexFile req).trace →
        (handler env root indexFile req).w.status = some 500) ∧
      ∀ params body, Event.fcgiRequest params body ∉ (handler env root indexFile req).trace := by
    by_cases hfav : req.Path = ("/favicon.ico" : Str)
    · rw [handler_favicon env root indexFile req hfav]; simp
    by_cases hrob : req.Path = ("/robots.txt" : Str)
    · rw [handler_robots env root indexFile req hrob]; simp
    rw [handler_resolution env root indexFile req hfav hrob]
    by_cases hs : isStaticFile req.Path = true
    · simp only [hs, if_true]
      by_cases he : fileExists env.fs (Join root req.Path) = true
      · simp [he, ServeFile, State.emit]
      · simp only [he, Bool.false_eq_true, if_false]
        exact tryFilesLoop_dial_fail env root _ hdial _ _ rfl (by simp) (by simp)
    · have hs' : isStaticFile req.Path = false := by simpa using hs
      simp only [hs', Bool.false_eq_true, if_false]
      exact tryFilesLoop_dial_fail env root _ hdial _ _ rfl (by simp) (by simp)
  refine ⟨fun h => ⟨500, key.1 h, rfl, rfl⟩, key.2, ?_⟩
  intro s scriptPath hw hex
  rw [servePHP_dial_fail env s _ scriptPath root hdial]
  rw [if_pos hex]
  exact ⟨Error_status _ _ _ hw, rfl⟩

theorem dial_failure_witness :
    Event.dial ∈ (handler (exampleEnv false) "/app/public" "index.php"
        (exampleRequest "/" [])).trace ∧
    (handler (exampleEnv false) "/app/public" "index.php" (exampleRequest "/" [])).w.status =
      some 500 := by
  have hmem : Event.dial ∈ (handler (exampleEnv false) "/app/public" "index.php"
      (exampleRequest "/" [])).trace := by decide
  obtain ⟨code, hc, h500, _⟩ := (dial_failure (exampleEnv false) "/app/public" "index.php"
    (exampleRequest "/" []) rfl).1 hmem
  exact ⟨hmem, by rw [hc, h500]⟩

/-! ## The CGI parameter set -/

theorem mapIndex_mapAssign_self {β : Type} (m : List (Str × β)) (k : Str) (v : β) :
    mapIndex (mapAssign m k v) k = some v := by
  induction m with
  | nil => simp [mapAssign, mapIndex]
  | cons e rest ih =>
    obtain ⟨k1, v1⟩ := e
    by_cases h : k1 = k
    · simp [mapAssign, mapIndex, h]
    · simp [mapAssign, mapIndex, h, ih]

theorem mapIndex_mapAssign_ne {β : Type} (m : List (Str × β)) (k n : Str) (v : β) (h : n ≠ k) :
    mapIndex (mapAssign m k v) n = mapIndex m n := by
  induction m with
  | nil => simp [mapAssign, mapIndex, Ne.symm h]
  | cons e rest ih =>
    obtain ⟨k1, v1⟩ := e
    by_cases h1 : k1 = k
    · have h2 : ¬ k1 = n := fun h2 => h (h2.symm.trans h1)
      have h3 : ¬ k = n := fun h3 => h h3.symm
      simp [mapAssign, mapIndex, h1, h3]
    · by_cases h4 : k1 = n
      · subst h4
        simp [mapAssign, mapIndex, h1]
      · simp [mapAssign, mapIndex, h1, h4, ih]

theorem headerKey_ne (upper : Char → Char) (k n : Str) (hn : n.take 5 ≠ ("HTTP_" : Str)) :
    headerKey upper k ≠ n := by
  intro h
  apply hn
  rw [← h]
  simp [headerKey]

theorem headerLoop_keep (upper : Char → Char) (hs : Header) (p ps : Params) (n : Str)
    (h : headerLoop upper hs p = some ps) (hn : ∀ kv ∈ hs, headerKey upper kv.1 ≠ n) :
    mapIndex ps n = mapIndex p n := by
  induction hs generalizing p with
  | nil =>
    simp only [headerLoop, Option.some.injEq] at h
    rw [h]
  | cons e rest ih =>
    obtain ⟨k, v⟩ := e
    cases v with
    | nil => simp [headerLoop] at h
    | cons v0 vs =>
      simp only [headerLoop] at h
      rw [ih _ h (fun kv hkv => hn kv (by simp [hkv]))]
      exact mapIndex_mapAssign_ne p _ n v0 (Ne.symm (hn (k, v0 :: vs) (by simp)))

theorem headerLoop_total (upper : Char → Char) (hs : Header) (p : Params)
    (hne : ∀ kv ∈ hs, kv.2 ≠ []) :
    ∃ ps, headerLoop upper hs p = some ps := by
  induction hs generalizing p with
  | nil => exact ⟨p, rfl⟩
  | cons e rest ih =>
    obtain ⟨k, v⟩ := e
    cases v with
    | nil => exact absurd rfl (hne (k, []) (by simp))
    | cons v0 vs =>
      simp only [headerLoop]
      exact ih _ (fun kv hkv => hne kv (by simp [hkv]))

theorem headerLoop_get (upper : Char → Char) (hs : Header) (p ps : Params) (k : Str)
    (v : List Str)
    (h : headerLoop upper hs p = some ps) (hnodup : (hs.map Prod.fst).Nodup) (hmem : (k, v) ∈ hs)
    (huniq : ∀ kv ∈ hs, headerKey upper kv.1 = headerKey upper k → kv.1 = k) :
    mapIndex ps (headerKey upper k) = v.head? := by
  induction hs generalizing p with
  | nil => simp at hmem
  | cons e rest ih =>
    obtain ⟨k1, v1⟩ := e
    simp only [List.map_cons, List.nodup_cons, List.mem_map, not_exists, not_and] at hnodup
    cases v1 with
    | nil => simp [headerLoop] at h
    | cons v0 vs =>
      simp only [headerLoop] at h
      rcases List.mem_cons.1 hmem with heq | hrest
      · obtain ⟨rfl, rfl⟩ := Prod.mk.inj heq
        have hkeep := headerLoop_keep upper rest _ ps (headerKey upper k) h (by
          intro kv hkv hk
          have := huniq kv (by simp [hkv]) hk
          exact hnodup.1 kv hkv this)
        rw [hkeep, mapIndex_mapAssign_self]
        rfl
      · exact ih _ h hnodup.2 hrest (fun kv hkv => huniq kv (by simp [hkv]))

theorem headerLoop_some (upper : Char → Char) (hs : Header) (p ps : Params) (k : Str)
    (v : List Str)
    (h : headerLoop upper hs p = some ps) (hmem : (k, v) ∈ hs) :
    ∃ k1 v1, (k1, v1) ∈ hs ∧ headerKey upper k1 = headerKey upper k ∧
      mapIndex ps (headerKey upper k) = v1.head? := by
  induction hs generalizing p k v with
  | nil => simp at hmem
  | cons e rest ih =>
    obtain ⟨k0, v0⟩ := e
    cases v0 with
    | nil => simp [headerLoop] at h
    | cons x xs =>
      simp only [headerLoop] at h
      by_cases hex : ∃ kv ∈ rest, headerKey upper kv.1 = headerKey upper k
      · obtain ⟨⟨k2, v2⟩, hm, hk⟩ := hex
        obtain ⟨k1, v1, hm1, hk1, hv1⟩ := ih _ k2 v2 h hm
        simp only at hk
        exact ⟨k1, v1, List.mem_cons_of_mem _ hm1, hk1.trans hk, by rw [← hk]; exact hv1⟩
      · have hnot : ∀ kv ∈ rest, headerKey upper kv.1 ≠ headerKey upper k :=
          fun kv hkv hk => hex ⟨kv, hkv, hk⟩
        rcases List.mem_cons.1 hmem with heq | hrest
        · obtain ⟨rfl, rfl⟩ := Prod.mk.inj heq
          refine ⟨k, x :: xs, List.mem_cons_self _ _, rfl, ?_⟩
          rw [headerLoop_keep upper rest _ ps (headerKey upper k) h hnot, mapIndex_mapAssign_self]
          rfl
        · exact absurd rfl (hnot (k, v) hrest)

theorem buildParams_fixed (upper : Char → Char) (r : Request) (scriptPath documentRoot : Str)
    (ps : Params) (n : Str)
    (h : buildParams upper r scriptPath documentRoot = some ps)
    (hn : n.take 5 ≠ ("HTTP_" : Str)) :
    mapIndex ps n = mapIndex (fixedParams r scriptPath documentRoot) n :=
  headerLoop_keep upper r.Header _ ps n h (fun kv _ => headerKey_ne upper kv.1 n hn)

theorem servePHP_request (env : Env) (s : State) (r : Request) (scriptPath documentRoot : Str)
    (params : Params) (body : Reader)
    (hmem : Event.fcgiRequest params body ∈ (servePHP env s r scriptPath documentRoot).trace)
    (hs : ∀ ps b, Event.fcgiRequest ps b ∉ s.trace) :
    buildParams env.unicodeToUpper r scriptPath documentRoot = some params ∧ body = r.Body := by
  unfold servePHP at hmem
  by_cases h1 : fileExists env.fs scriptPath = true
  · by_cases h2 : env.dialOk = true
    · cases h3 : buildParams env.unicodeToUpper r scriptPath documentRoot with
      | none =>
        simp [h1, h2, h3, State.emit] at hmem
        exact absurd hmem (hs _ _)
      | some ps =>
        cases h4 : env.fcgiRequest ps r.Body with
        | none =>
          simp [h1, h2, h3, h4, State.emit] at hmem
          rcases hmem with hmem | hmem
          · exact absurd hmem (hs _ _)
          · exact ⟨by rw [hmem.1], hmem.2⟩
        | some resp =>
          simp [h1, h2, h3, h4, State.emit, copyBody] at hmem
          split at hmem
          · simp [State.emit] at hmem
            rcases hmem with hmem | hmem
            · exact absurd hmem (hs _ _)
            · exact ⟨by rw [hmem.1], hmem.2⟩
          · simp at hmem
            rcases hmem with hmem | hmem
            · exact absurd hmem (hs _ _)
            · exact ⟨by rw [hmem.1], hmem.2⟩
    · simp [h1, h2, State.emit] at hmem
      exact absurd hmem (hs _ _)
  · simp [h1, State.emit] at hmem
    exact absurd hmem (hs _ _)

theorem servePHP_sends (env : Env) (s : State) (r : Request) (scriptPath documentRoot : Str)
    (params : Params) (h1 : fileExists env.fs scriptPath = true) (h2 : env.dialOk = true)
    (h3 : buildParams env.unicodeToUpper r scriptPath documentRoot = some params) :
    Event.fcgiRequest params r.Body ∈ (servePHP env s r scriptPath documentRoot).trace := by
  unfold servePHP
  cases h4 : env.fcgiRequest params r.Body with
  | none => simp [h1, h2, h3, h4, State.emit]
  | some resp =>
    simp only [h1, h2, h3, h4, State.emit, copyBody, Bool.not_true, Bool.false_eq_true, if_false]
    split <;> simp

theorem toUpperRune_dash (upper : Char → Char)
    (hupper : ∀ c : Char, 128 ≤ c.toNat → upper c ≠ '-') (c : Char) :
    toUpperRune upper c = '-' ↔ c = '-' := by
  unfold toUpperRune
  by_cases h : 'a' ≤ c ∧ c ≤ 'z'
  · rw [if_pos h]
    obtain ⟨h1, h2⟩ := h
    have e : c = Char.ofNat c.toNat := (Char.ofNat_toNat c).symm
    have h1' : 97 ≤ c.toNat := h1
    have h2' : c.toNat ≤ 122 := h2
    rw [e]
    generalize c.toNat = n at *
    interval_cases n <;> decide
  · rw [if_neg h]
    by_cases h3 : c.toNat < 128
    · rw [if_pos h3]
    · rw [if_neg h3]
      constructor
      · intro h4
        exact absurd h4 (hupper c (Nat.le_of_not_lt h3))
      · intro h4
        rw [h4] at h3
        exact absurd (by decide) h3

theorem ToUpper_ReplaceAll (upper : Char → Char)
    (hupper : ∀ c : Char, 128 ≤ c.toNat → upper c ≠ '-') (k : Str) :
    ToUpper upper (ReplaceAll k '-' '_') = ReplaceAll (ToUpper upper k) '-' '_' := by
  induction k with
  | nil => rfl
  | cons c cs ih =>
    have ih' : List.map (toUpperRune upper)
          (List.map (fun c => if c = '-' then '_' else c) cs) =
        List.map (fun c => if c = '-' then '_' else c) (List.map (toUpperRune upper) cs) := ih
    by_cases h : c = '-'
    · subst h
      have h1 : toUpperRune upper '_' = '_' := by
        unfold toUpperRune
        rw [if_neg (by decide), if_pos (by decide)]
      have h2 : toUpperRune upper '-' = '-' := (toUpperRune_dash upper hupper '-').2 rfl
      simp only [ToUpper, ReplaceAll, List.map_cons, if_true, ih', h1, h2]
    · have h2 : ¬ toUpperRune upper c = '-' :=
        fun h2 => h ((toUpperRune_dash upper hupper c).1 h2)
      simp only [ToUpper, ReplaceAll, List.map_cons, if_neg h, if_neg h2, ih']

/-- C6. Whatever the request headers are, every parameter set that `servePHP`
passes to `fcgi.Request` maps each of the 14 fixed names to its value:
`SCRIPT_FILENAME` to the script path, `SCRIPT_NAME` to the URL path,
`REQUEST_METHOD` to the method, `QUERY_STRING` to the raw query, `CONTENT_TYPE` and
`CONTENT_LENGTH` to the first value of the `Content-Type` and `Content-Length`
request headers (empty when absent), `DOCUMENT_ROOT` to the document root,
`SERVER_PROTOCOL`, `REMOTE_ADDR`, `REQUEST_URI`, `SERVER_NAME` to the protocol, the
remote address, the request URI and the host, `GATEWAY_INTERFACE` to `CGI/1.1`,
`SERVER_SOFTWARE` to `go/fcgi` and `SERVER_PORT` to `80`; the entries derived from
headers never replace or remove one of them. Such a parameter set is passed
whenever the script exists, the dial succeeds and every header has a value. -/
theorem fixed_params (env : Env) (w : ResponseWriter) (r : Request)
    (scriptPath documentRoot : Str) :
    (∀ params body,
      Event.fcgiRequest params body ∈
          (servePHP env ⟨w, [], false⟩ r scriptPath documentRoot).trace →
        mapIndex params "SCRIPT_FILENAME" = some scriptPath ∧
        mapIndex params "SCRIPT_NAME" = some r.Path ∧
        mapIndex params "REQUEST_METHOD" = some r.Method ∧
        mapIndex params "QUERY_STRING" = some r.RawQuery ∧
        mapIndex params "CONTENT_TYPE" = some ((r.Header.values "Content-Type").headD []) ∧
        mapIndex params "CONTENT_LENGTH" = some ((r.Header.values "Content-Length").headD []) ∧
        mapIndex params "DOCUMENT_ROOT" = some documentRoot ∧
        mapIndex params "SERVER_PROTOCOL" = some r.Proto ∧
        mapIndex params "REMOTE_ADDR" = some r.RemoteAddr ∧
        mapIndex params "REQUEST_URI" = some r.RequestURI ∧
        mapIndex params "SERVER_NAME" = some r.Host ∧
        mapIndex params "GATEWAY_INTERFACE" = some ("CGI/1.1" : Str) ∧
        mapIndex params "SERVER_SOFTWARE" = some ("go/fcgi" : Str) ∧
        mapIndex params "SERVER_PORT" = some ("80" : Str)) ∧
    (fileExists env.fs scriptPath = true → env.dialOk = true →
      (∀ kv ∈ r.Header, kv.2 ≠ []) →
      ∃ params, Event.fcgiRequest params r.Body ∈
        (servePHP env ⟨w, [], false⟩ r scriptPath documentRoot).trace) := by
  constructor
  · intro params body hmem
    have hb := (servePHP_request env _ r scriptPath documentRoot params body hmem (by simp)).1
    have hget : ∀ (h : Header) (key : Str), CanonicalMIMEHeaderKey key = key →
        h.Get key = (h.values key).headD [] := by
      intro h key hk
      unfold Header.Get
      rw [hk]
      cases h.values key <;> rfl
    have hct : r.Header.Get "Content-Type" = (r.Header.values "Content-Type").headD [] :=
      hget _ _ (by decide)
    have hcl : r.Header.Get "Content-Length" = (r.Header.values "Content-Length").headD [] :=
      hget _ _ (by decide)
    refine ⟨?_, ?_, ?_, ?_, ?_, ?_, ?_, ?_, ?_, ?_, ?_, ?_, ?_, ?_⟩
    · exact (buildParams_fixed _ r _ _ params _ hb (by decide)).trans rfl
    · exact (buildParams_fixed _ r _ _ params _ hb (by decide)).trans rfl
    · exact (buildParams_fixed _ r _ _ params _ hb (by decide)).trans rfl
    · exact (buildParams_fixed _ r _ _ params _ hb (by decide)).trans rfl
    · rw [← hct]; exact (buildParams_fixed _ r _ _ params _ hb (by decide)).trans rfl
    · rw [← hcl]; exact (buildParams_fixed _ r _ _ params _ hb (by decide)).trans rfl
    · exact (buildParams_fixed _ r _ _ params _ hb (by decide)).trans rfl
    · exact (buildParams_fixed _ r _ _ params _ hb (by decide)).trans rfl
    · exact (buildParams_fixed _ r _ _ params _ hb (by decide)).trans rfl
    · exact (buildParams_fixed _ r _ _ params _ hb (by decide)).trans rfl
    · exact (buildParams_fixed _ r _ _ params _ hb (by decide)).trans rfl
    · exact (buildParams_fixed _ r _ _ params _ hb (by decide)).trans rfl
    · exact (buildParams_fixed _ r _ _ params _ hb (by decide)).trans rfl
    · exact (buildParams_fixed _ r _ _ params _ hb (by decide)).trans rfl
  · intro h1 h2 hne
    obtain ⟨ps, hps⟩ := headerLoop_total env.unicodeToUpper r.Header
      (fixedParams r scriptPath documentRoot) hne
    exact ⟨ps, servePHP_sends env _ r scriptPath documentRoot ps h1 h2 hps⟩

theorem fixed_params_witness :
    ∃ params, Event.fcgiRequest params ⟨[], false⟩ ∈
      (servePHP (exampleEnv true) ⟨charsetWriter, [], false⟩
        (exampleRequest "/" [("Server-Port", ["8080"]), ("Content-Type", ["text/xml", "b"])])
        "/app/public/index.php" "/app/public").trace ∧
      mapIndex params "SERVER_PORT" = some ("80" : Str) ∧
      mapIndex params "CONTENT_TYPE" = some ("text/xml" : Str) := by
  have h := fixed_params (exampleEnv true) charsetWriter
    (exampleRequest "/" [("Server-Port", ["8080"]), ("Content-Type", ["text/xml", "b"])])
    "/app/public/index.php" "/app/public"
  obtain ⟨params, hp⟩ := h.2 (by decide) rfl (by decide)
  have hfix := h.1 params _ hp
  exact ⟨params, hp, hfix.2.2.2.2.2.2.2.2.2.2.2.2.2, hfix.2.2.2.2.1.trans (by decide)⟩

theorem headerKey_latin :
    headerKey exampleToUpper "X-é" = ("HTTP_X_É" : Str) ∧
    headerKey exampleToUpper "X-É" = ("HTTP_X_É" : Str) ∧
    headerKey exampleToUpper "x-forwarded-for" = ("HTTP_X_FORWARDED_FOR" : Str) := by
  decide

/-- C7 fails as stated. The header names `X-Custom` and `X_custom` are distinct
canonical keys of one request, and both have the derived key `HTTP_X_CUSTOM`. The
parameter set holds one entry for that key, the value of the header visited last:
with `X_custom` visited last the entry is `value2`, not the first value `value1`
of `X-Custom`, and in the other iteration order it is not the first value of
`X_custom`. So it is not true that for every header name of every request the
derived key is mapped to the first value of that header. -/
theorem header_key_collision :
    (collidingHeaders.map Prod.fst).Nodup ∧
    (∀ kv ∈ collidingHeaders, CanonicalMIMEHeaderKey kv.1 = kv.1) ∧
    (("X-Custom" : Str), [("value1" : Str)]) ∈ collidingHeaders ∧
    (("X_custom" : Str), [("value2" : Str)]) ∈ collidingHeaders ∧
    headerKey exampleToUpper "X-Custom" = ("HTTP_X_CUSTOM" : Str) ∧
    headerKey exampleToUpper "X_custom" = ("HTTP_X_CUSTOM" : Str) ∧
    (buildParams exampleToUpper (exampleRequest "/" collidingHeaders) "/app/public/index.php"
        "/app/public").map (fun ps => mapIndex ps (headerKey exampleToUpper "X-Custom")) =
      some (some ("value2" : Str)) ∧
    (buildParams exampleToUpper (exampleRequest "/" collidingHeaders.reverse)
        "/app/public/index.php" "/app/public").map
        (fun ps => mapIndex ps (headerKey exampleToUpper "X_custom")) =
      some (some ("value1" : Str)) ∧
    ¬ (∀ (upper : Char → Char) (r : Request) (scriptPath documentRoot k : Str) (v : List Str),
        (r.Header.map Prod.fst).Nodup → (k, v) ∈ r.Header →
        ∃ ps, buildParams upper r scriptPath documentRoot = some ps ∧
          mapIndex ps (headerKey upper k) = v.head?) := by
  refine ⟨by decide, by decide, by decide, by decide, by decide, by decide, by decide, by decide,
    ?_⟩
  intro h
  obtain ⟨ps, hps, hv⟩ := h exampleToUpper (exampleRequest "/" collidingHeaders)
    "/app/public/index.php" "/app/public" "X-Custom" [("value1" : Str)] (by decide) (by decide)
  have hps2 : buildParams exampleToUpper (exampleRequest "/" collidingHeaders)
      "/app/public/index.php" "/app/public" =
        some ((buildParams exampleToUpper (exampleRequest "/" collidingHeaders)
          "/app/public/index.php" "/app/public").getD []) := by decide
  rw [hps2] at hps
  have hps3 := Option.some.inj hps
  rw [← hps3] at hv
  revert hv
  decide

/-- C7, amended. For every upper-case table of the runes outside ASCII and every
request whose header values are all non-empty sequences (header names being the
distinct keys of the header map), building the parameter set succeeds, and for
every header name `k` with value sequence `v`: the derived key is `"HTTP_"`
followed by the upper case of `k` with every `-` replaced by `_` (replacing before
or after upper-casing gives the same key, as no rune outside ASCII has `-` as its
upper case); the set maps that key to the first value of some header of the
request with the same derived key; and when no other header name of the request
has the same derived key, it maps the key to `v[0]`, the first value of `k` only. -/
theorem derived_params (upper : Char → Char) (r : Request) (scriptPath documentRoot : Str)
    (hmap : (r.Header.map Prod.fst).Nodup) (hne : ∀ kv ∈ r.Header, kv.2 ≠ []) :
    ∃ ps, buildParams upper r scriptPath documentRoot = some ps ∧
      ∀ k v, (k, v) ∈ r.Header →
        headerKey upper k = ("HTTP_" : Str) ++ ToUpper upper (ReplaceAll k '-' '_') ∧
        ((∀ c : Char, 128 ≤ c.toNat → upper c ≠ '-') →
          headerKey upper k = ("HTTP_" : Str) ++ ReplaceAll (ToUpper upper k) '-' '_') ∧
        (∃ k1 v1, (k1, v1) ∈ r.Header ∧ headerKey upper k1 = headerKey upper k ∧
          mapIndex ps (headerKey upper k) = v1.head?) ∧
        ((∀ kv ∈ r.Header, headerKey upper kv.1 = headerKey upper k → kv.1 = k) →
          mapIndex ps (headerKey upper k) = v.head?) := by
  obtain ⟨ps, hps⟩ :=
    headerLoop_total upper r.Header (fixedParams r scriptPath documentRoot) hne
  refine ⟨ps, hps, ?_⟩
  intro k v hmem
  refine ⟨rfl, ?_, headerLoop_some upper r.Header _ ps k v hps hmem,
    fun huniq => headerLoop_get upper r.Header _ ps k v hps hmap hmem huniq⟩
  intro hupper
  unfold headerKey
  rw [ToUpper_ReplaceAll upper hupper]

theorem buildParams_empty_values :
    buildParams exampleToUpper (exampleRequest "/" [("X-Empty", [])]) "/app/public/index.php"
      "/app/public" = none := by
  decide

theorem derived_params_witness :
    ∃ ps, buildParams exampleToUpper
        (exampleRequest "/" [("X-Custom", ["value1"]), ("Accept", ["a", "b"]), ("X-é", ["c"])])
        "/app/public/index.php" "/app/public" = some ps ∧
      mapIndex ps "HTTP_X_CUSTOM" = some ("value1" : Str) ∧
      mapIndex ps "HTTP_ACCEPT" = some ("a" : Str) ∧
      mapIndex ps "HTTP_X_É" = some ("c" : Str) := by
  obtain ⟨ps, hps, h⟩ := derived_params exampleToUpper
    (exampleRequest "/" [("X-Custom", ["value1"]), ("Accept", ["a", "b"]), ("X-é", ["c"])])
    "/app/public/index.php" "/app/public" (by decide) (by decide)
  refine ⟨ps, hps, ?_, ?_, ?_⟩
  · exact (h "X-Custom" [("value1" : Str)] (by decide)).2.2.2 (by decide)
  · exact (h "Accept" [("a" : Str), ("b" : Str)] (by decide)).2.2.2 (by decide)
  · exact (h "X-é" [("c" : Str)] (by decide)).2.2.2 (by decide)

/-! ## The response relay -/

theorem values_mapAssign_self (h : Header) (k : Str) (vs : List Str) :
    Header.values (mapAssign h k vs) k = vs := by
  simp [Header.values, mapIndex_mapAssign_self]

theorem values_mapAssign_ne (h : Header) (k n : Str) (vs : List Str) (hn : n ≠ k) :
    Header.values (mapAssign h k vs) n = Header.values h n := by
  simp [Header.values, mapIndex_mapAssign_ne h k n vs hn]

theorem addValues_self (h : Header) (k : Str) (vs : List Str) :
    (addValues h k vs).values (CanonicalMIMEHeaderKey k) =
      h.values (CanonicalMIMEHeaderKey k) ++ vs := by
  induction vs generalizing h with
  | nil => simp [addValues]
  | cons v rest ih =>
    simp only [addValues]
    rw [ih, Header.Add, values_mapAssign_self]
    simp

theorem addValues_ne (h : Header) (k n : Str) (vs : List Str)
    (hn : n ≠ CanonicalMIMEHeaderKey k) :
    (addValues h k vs).values n = h.values n := by
  induction vs generalizing h with
  | nil => simp [addValues]
  | cons v rest ih =>
    simp only [addValues]
    rw [ih, Header.Add, values_mapAssign_ne _ _ _ _ hn]

theorem addValues_values (h : Header) (k n : Str) (vs : List Str) :
    (addValues h k vs).values n =
      h.values n ++ (if CanonicalMIMEHeaderKey k = n then vs else []) := by
  by_cases hn : CanonicalMIMEHeaderKey k = n
  · rw [if_pos hn, ← hn]
    exact addValues_self h k vs
  · rw [if_neg hn, List.append_nil]
    exact addValues_ne h k n vs (fun e => hn e.symm)

theorem relayHeaders_values (h H : Header) (n : Str) :
    (relayHeaders h H).values n = h.values n ++ relayed n H := by
  induction H generalizing h with
  | nil => simp [relayHeaders, relayed]
  | cons e rest ih =>
    obtain ⟨k, v⟩ := e
    simp only [relayHeaders, relayed]
    rw [ih, addValues_values, List.append_assoc]

theorem relayed_other (H : Header) (n : Str)
    (hn : n ∉ H.map (fun kv => CanonicalMIMEHeaderKey kv.1)) : relayed n H = [] := by
  induction H with
  | nil => rfl
  | cons e rest ih =>
    obtain ⟨k, v⟩ := e
    simp only [List.map_cons, List.mem_cons, not_or] at hn
    simp only [relayed]
    rw [if_neg (fun e => hn.1 e.symm), ih hn.2]
    rfl

theorem relayed_contains (H : Header) (k : Str) (v : List Str) (hmem : (k, v) ∈ H) :
    ∃ before after, relayed (CanonicalMIMEHeaderKey k) H = before ++ v ++ after := by
  induction H with
  | nil => simp at hmem
  | cons e rest ih =>
    obtain ⟨k1, v1⟩ := e
    simp only [relayed]
    rcases List.mem_cons.1 hmem with heq | hrest
    · obtain ⟨rfl, rfl⟩ := Prod.mk.inj heq
      exact ⟨[], relayed (CanonicalMIMEHeaderKey k) rest, by simp⟩
    · obtain ⟨before, after, h⟩ := ih hrest
      refine ⟨(if CanonicalMIMEHeaderKey k1 = CanonicalMIMEHeaderKey k then v1 else []) ++ before,
        after, ?_⟩
      rw [h]
      simp

theorem relayed_named (H : Header) (k : Str) (v : List Str)
    (hkeys : (H.map (fun kv => CanonicalMIMEHeaderKey kv.1)).Nodup) (hmem : (k, v) ∈ H) :
    relayed (CanonicalMIMEHeaderKey k) H = v := by
  induction H with
  | nil => simp at hmem
  | cons e rest ih =>
    obtain ⟨k1, v1⟩ := e
    simp only [List.map_cons, List.nodup_cons] at hkeys
    simp only [relayed]
    rcases List.mem_cons.1 hmem with heq | hrest
    · obtain ⟨rfl, rfl⟩ := Prod.mk.inj heq
      rw [if_pos rfl, relayed_other rest _ hkeys.1, List.append_nil]
    · have hne : ¬ CanonicalMIMEHeaderKey k1 = CanonicalMIMEHeaderKey k := by
        intro heq
        apply hkeys.1
        rw [heq]
        exact List.mem_map.2 ⟨(k, v), hrest, rfl⟩
      rw [if_neg hne, ih hkeys.2 hrest]
      rfl

theorem servePHP_relay (env : Env) (s : State) (r : Request) (scriptPath documentRoot : Str)
    (params : Params) (resp : FcgiResponse)
    (hex : fileExists env.fs scriptPath = true) (hdial : env.dialOk = true)
    (hparams : buildParams env.unicodeToUpper r scriptPath documentRoot = some params)
    (hresp : env.fcgiRequest params r.Body = some resp) :
    (servePHP env s r scriptPath documentRoot).w =
      if resp.Body.data = [] then { s.w with header := relayHeaders s.w.header resp.Header }
      else ({ s.w with header := relayHeaders s.w.header resp.Header }).Write resp.Body.data := by
  unfold servePHP
  simp only [hex, hdial, hparams, hresp, State.emit, copyBody, Bool.not_true, Bool.false_eq_true,
    if_false]
  split <;> rfl

/-- C9. When `servePHP` gets a response from the upstream (the script exists, the
dial succeeds, the parameters are built and `fcgi.Request` returns a response with
header map `H` and body `B`): for every name `k` of `H` with values `v`, the values
under `k` after the relay are the values that were there before, followed by values
relayed from `H` that hold all of `v` in order as one block; when the keys of `H`
are distinct canonical header names, as the MIME header parser yields them, they
are exactly the values that were there before followed by `v`. Every header whose
name is not one of `H` is unchanged. The body written is what was there before
followed by `B`, and for a non-empty `B` the headers sent, with status 200, are
the header map after the relay. -/
theorem response_relay (env : Env) (s : State) (r : Request) (scriptPath documentRoot : Str)
    (params : Params) (resp : FcgiResponse)
    (hex : fileExists env.fs scriptPath = true) (hdial : env.dialOk = true)
    (hparams : buildParams env.unicodeToUpper r scriptPath documentRoot = some params)
    (hresp : env.fcgiRequest params r.Body = some resp) :
    (∀ k v, (k, v) ∈ resp.Header →
      (∃ before after, (servePHP env s r scriptPath documentRoot).w.header.Values k =
        s.w.header.Values k ++ before ++ v ++ after) ∧
      ((resp.Header.map (fun kv => CanonicalMIMEHeaderKey kv.1)).Nodup →
        (servePHP env s r scriptPath documentRoot).w.header.Values k =
          s.w.header.Values k ++ v)) ∧
    (∀ n, n ∉ resp.Header.map (fun kv => CanonicalMIMEHeaderKey kv.1) →
      (servePHP env s r scriptPath documentRoot).w.header.values n = s.w.header.values n) ∧
    (servePHP env s r scriptPath documentRoot).w.body = s.w.body ++ resp.Body.data ∧
    (s.w.wrote = none → resp.Body.data ≠ [] →
      (servePHP env s r scriptPath documentRoot).w.wrote =
        some (200, (servePHP env s r scriptPath documentRoot).w.header)) := by
  have hw := servePHP_relay env s r scriptPath documentRoot params resp hex hdial hparams hresp
  have hhdr : (servePHP env s r scriptPath documentRoot).w.header =
      relayHeaders s.w.header resp.Header := by
    rw [hw]
    split
    · rfl
    · simp only [ResponseWriter.Write, ResponseWriter.WriteHeader]
      split <;> rfl
  refine ⟨?_, ?_, ?_, ?_⟩
  · intro k v hmem
    rw [hhdr]
    unfold Header.Values
    rw [relayHeaders_values]
    constructor
    · obtain ⟨before, after, h⟩ := relayed_contains resp.Header k v hmem
      exact ⟨before, after, by rw [h]; simp⟩
    · intro hkeys
      rw [relayed_named resp.Header k v hkeys hmem]
  · intro n hn
    rw [hhdr, relayHeaders_values, relayed_other resp.Header n hn, List.append_nil]
  · rw [hw]
    split
    · rename_i h0; simp [h0]
    · simp only [ResponseWriter.Write, ResponseWriter.WriteHeader]
      split <;> rfl
  · intro hnone hdata
    rw [hw, if_neg hdata]
    simp [ResponseWriter.Write, ResponseWriter.WriteHeader, hnone]

theorem response_relay_witness :
    (handler (exampleEnv true) "/app/public" "index.php" (exampleRequest "/" [])).w =
      ⟨[("Charset", ["utf-8"]), ("Content-Type", ["text/html"])],
        some (200, [("Charset", ["utf-8"]), ("Content-Type", ["text/html"])]), "hello"⟩ ∧
    (servePHP (exampleEnv true) ⟨charsetWriter, [], false⟩ (exampleRequest "/" [])
      "/app/public/index.php" "/app/public").w.header.Values "Content-Type" =
        [("text/html" : Str)] ∧
    (servePHP (exampleEnv true) ⟨charsetWriter, [], false⟩ (exampleRequest "/" [])
      "/app/public/index.php" "/app/public").w.header.values "Charset" = [("utf-8" : Str)] ∧
    (servePHP (exampleEnv true) ⟨charsetWriter, [], false⟩ (exampleRequest "/" [])
      "/app/public/index.php" "/app/public").w.body = ("hello" : Str) := by
  have h := response_relay (exampleEnv true) ⟨charsetWriter, [], false⟩ (exampleRequest "/" [])
    "/app/public/index.php" "/app/public"
    (fixedParams (exampleRequest "/" []) "/app/public/index.php" "/app/public")
    ⟨[("Content-Type", ["text/html"])], ⟨"hello", false⟩⟩
    (by decide) rfl rfl rfl
  refine ⟨by decide, ?_, ?_, ?_⟩
  · exact ((h.1 "Content-Type" [("text/html" : Str)] (by decide)).2 (by decide)).trans
      (by decide)
  · exact (h.2.1 "Charset" (by decide)).trans (by decide)
  · exact h.2.2.1.trans (by decide)

/-! ## `isStaticFile` -/

theorem toLowerRune_eq_ascii (c x : Char) (hx : toLowerRune x = x)
    (hup : ∀ n, 65 ≤ n → n ≤ 90 → Char.ofNat (n + 32) ≠ x) (hi : x ≠ 'i') (hk : x ≠ 'k') :
    toLowerRune c = x ↔ c = x := by
  constructor
  · intro h
    unfold toLowerRune at h
    by_cases h1 : 'A' ≤ c ∧ c ≤ 'Z'
    · rw [if_pos h1] at h
      exact absurd h (hup c.toNat h1.1 h1.2)
    · rw [if_neg h1] at h
      by_cases h3 : c = Char.ofNat 0x130
      · rw [if_pos h3] at h; exact absurd h.symm hi
      · rw [if_neg h3] at h
        by_cases h4 : c = Char.ofNat 0x212A
        · rw [if_pos h4] at h; exact absurd h.symm hk
        · rw [if_neg h4] at h; exact h
  · rintro rfl
    exact hx

theorem toLowerRune_slash (c : Char) : toLowerRune c = '/' ↔ c = '/' :=
  toLowerRune_eq_ascii c '/' (by decide)
    (by intro n h1 h2; interval_cases n <;> decide) (by decide) (by decide)

theorem toLowerRune_dot (c : Char) : toLowerRune c = '.' ↔ c = '.' :=
  toLowerRune_eq_ascii c '.' (by decide)
    (by intro n h1 h2; interval_cases n <;> decide) (by decide) (by decide)

theorem extLoop_lower (r1 r2 a1 a2 : List Char)
    (hr : r1.map toLowerRune = r2.map toLowerRune)
    (ha : a1.map toLowerRune = a2.map toLowerRune) :
    (extLoop r1 a1).map toLowerRune = (extLoop r2 a2).map toLowerRune := by
  induction r1 generalizing r2 a1 a2 with
  | nil =>
    cases r2 with
    | nil => rfl
    | cons d r2 => simp at hr
  | cons c r1 ih =>
    cases r2 with
    | nil => simp at hr
    | cons d r2 =>
      simp only [List.map_cons, List.cons.injEq] at hr
      obtain ⟨hcd, hr⟩ := hr
      have hs : c = '/' ↔ d = '/' := by
        rw [← toLowerRune_slash c, ← toLowerRune_slash d, hcd]
      have hd : c = '.' ↔ d = '.' := by
        rw [← toLowerRune_dot c, ← toLowerRune_dot d, hcd]
      by_cases h1 : c = '/'
      · simp [extLoop, h1, hs.1 h1]
      · have h1' : ¬ d = '/' := fun h => h1 (hs.2 h)
        by_cases h2 : c = '.'
        · simp only [extLoop, if_neg h1, if_neg h1', if_pos h2, if_pos (hd.1 h2), List.map_cons,
            hcd, ha]
        · have h2' : ¬ d = '.' := fun h => h2 (hd.2 h)
          simp only [extLoop, if_neg h1, if_neg h1', if_neg h2, if_neg h2']
          exact ih r2 (c :: a1) (d :: a2) hr (by simp [hcd, ha])

theorem Ext_lower (p q : Str) (h : ToLower p = ToLower q) :
    ToLower (Ext p) = ToLower (Ext q) := by
  unfold ToLower at h
  exact extLoop_lower p.reverse q.reverse [] []
    (by rw [List.map_reverse, List.map_reverse, h]) rfl

theorem extLoopStatic_iff (ext : Str) (l : List Str) : extLoopStatic ext l = true ↔ ext ∈ l := by
  induction l with
  | nil => simp [extLoopStatic]
  | cons e rest ih =>
    by_cases h : ext = e
    · simp [extLoopStatic, h]
    · simp [extLoopStatic, h, ih]

theorem extLoop_append_hit (xs ys acc : List Char) (h : '/' ∈ xs ∨ '.' ∈ xs) :
    extLoop (xs ++ ys) acc = extLoop xs acc := by
  induction xs generalizing acc with
  | nil => simp at h
  | cons c cs ih =>
    by_cases h1 : c = '/'
    · simp [extLoop, h1]
    · by_cases h2 : c = '.'
      · simp [extLoop, h2]
      · simp only [List.cons_append, extLoop, if_neg h1, if_neg h2]
        apply ih
        rcases h with h | h
        · left
          rcases List.mem_cons.1 h with h | h
          · exact absurd h.symm h1
          · exact h
        · right
          rcases List.mem_cons.1 h with h | h
          · exact absurd h.symm h2
          · exact h

theorem extLoop_append_miss (xs ys acc : List Char) (h1 : '/' ∉ xs) (h2 : '.' ∉ xs) :
    extLoop (xs ++ ys) acc = extLoop ys (xs.reverse ++ acc) := by
  induction xs generalizing acc with
  | nil => rfl
  | cons c cs ih =>
    simp only [List.mem_cons, not_or] at h1 h2
    have hc1 : ¬ c = '/' := fun h => h1.1 h.symm
    have hc2 : ¬ c = '.' := fun h => h2.1 h.symm
    simp only [List.cons_append, extLoop, if_neg hc1, if_neg hc2]
    have := ih (c :: acc) h1.2 h2.2
    simpa using this

theorem Ext_cons (c : Char) (cs : List Char) :
    Ext (c :: cs) =
      if '/' ∈ cs ∨ '.' ∈ cs then Ext cs
      else if c = '/' then [] else if c = '.' then c :: cs else [] := by
  unfold Ext
  rw [List.reverse_cons]
  by_cases h : '/' ∈ cs ∨ '.' ∈ cs
  · rw [if_pos h]
    exact extLoop_append_hit _ _ _ (by simpa using h)
  · rw [if_neg h]
    simp only [not_or] at h
    rw [extLoop_append_miss _ _ _ (by simpa using h.1) (by simpa using h.2)]
    simp [extLoop]

theorem lastElement_no_sep (cs : List Char) (h : '/' ∉ cs) : lastElement cs = cs := by
  cases cs with
  | nil => rfl
  | cons c cs =>
    simp only [List.mem_cons, not_or] at h
    have hc : ¬ c = '/' := fun e => h.1 e.symm
    simp [lastElement, h.2, hc]

theorem fromLastDot_no_dot (cs : List Char) (h : '.' ∉ cs) : fromLastDot cs = [] := by
  cases cs with
  | nil => rfl
  | cons c cs =>
    simp only [List.mem_cons, not_or] at h
    have hc : ¬ c = '.' := fun e => h.1 e.symm
    simp [fromLastDot, h.2, hc]

theorem Ext_eq_specExtension (path : Str) : Ext path = specExtension path := by
  induction path with
  | nil => rfl
  | cons c cs ih =>
    unfold specExtension at ih ⊢
    rw [Ext_cons]
    by_cases hs : '/' ∈ cs
    · simp [lastElement, hs, ih]
    · have hl := lastElement_no_sep cs hs
      rw [hl] at ih
      by_cases hd : '.' ∈ cs
      · by_cases hc : c = '/'
        · simp [lastElement, hs, hd, hc, ih]
        · simp [lastElement, fromLastDot, hs, hd, hc, ih]
      · have hf := fromLastDot_no_dot cs hd
        by_cases hc : c = '/'
        · simp [lastElement, hs, hd, hc, hf]
        · simp [lastElement, fromLastDot, hs, hd, hc]

/-- C1. `isStaticFile path` holds if and only if the lower-cased extension of the
path is one of `.js .css .png .jpeg .jpg .gif .ico .swf .flv .pdf .zip`, where the
extension is the suffix starting at the last `.` of the last path element (empty
when there is none), which is what `filepath.Ext` computes. It is false for every
path ending in `.php` and for every path without an extension, and it gives the
same result for a path and for the path with a case variant of a suffix in place of
that suffix, in particular of its extension. -/
theorem isStaticFile_spec :
    (∀ path : Str, isStaticFile path = true ↔
      ToLower (specExtension path) ∈
        ([".js", ".css", ".png", ".jpeg", ".jpg", ".gif", ".ico", ".swf", ".flv", ".pdf",
          ".zip"] : List Str)) ∧
    (∀ path : Str, Ext path = specExtension path) ∧
    (∀ stem : Str, isStaticFile (stem ++ (".php" : Str)) = false) ∧
    (∀ path : Str, specExtension path = [] → isStaticFile path = false) ∧
    (∀ stem e e' : Str, caseVariant e e' →
      isStaticFile (stem ++ e) = isStaticFile (stem ++ e')) := by
  have hiff : ∀ path : Str, isStaticFile path = true ↔ ToLower (specExtension path) ∈ extensions := by
    intro path
    rw [← Ext_eq_specExtension]
    exact extLoopStatic_iff _ _
  refine ⟨hiff, Ext_eq_specExtension, ?_, ?_, ?_⟩
  · intro stem
    unfold isStaticFile
    rw [Ext_append_php]
    decide
  · intro path h
    unfold isStaticFile
    rw [Ext_eq_specExtension, h]
    decide
  · intro stem e e' h
    unfold isStaticFile
    rw [Ext_lower (stem ++ e) (stem ++ e')]
    unfold caseVariant at h
    unfold ToLower at h ⊢
    rw [List.map_append, List.map_append, h]

theorem isStaticFile_spec_witness :
    caseVariant (".ZiP" : Str) (".zip" : Str) ∧
    isStaticFile ("/assets/site.ZiP" : Str) = isStaticFile ("/assets/site.zip" : Str) ∧
    isStaticFile ("/assets/site.zip" : Str) = true ∧
    specExtension ("/assets.d/readme" : Str) = [] ∧
    isStaticFile ("/assets.d/readme" : Str) = false :=
  ⟨rfl, isStaticFile_spec.2.2.2.2 "/assets/site" ".ZiP" ".zip" rfl,
    (isStaticFile_spec.1 "/assets/site.zip").2 (by decide), by decide,
    isStaticFile_spec.2.2.2.1 "/assets.d/readme" (by decide)⟩

end WebServer
